import Mathlib

/-!
# porch-operator: the PackageRevision types and the reconciler

A shallow embedding of

* `api/v1alpha1/packagerevision_types.go` (the data model), and
* `internal/controller/packagerevision_controller.go` (`Reconcile`,
  `doFinalizerOperationsForPackageRevision`).

Go structs become Lean structures with the same field names, Go pointers become
`Option`, Go slices become `List`, Go named string types become `String`.
The zero value of a Go struct is the Lean structure whose every field is the
zero value of its type; it is written out as `zero` for the types that need it.

The controller talks to three collaborators that live outside the repository:
the API client (`Get`, `Update`, `Status().Update`), the event recorder and the
helper libraries `meta.SetStatusCondition` / `controllerutil.*Finalizer`.  They
are modelled explicitly below as operations on a `World`: one stored object
(the object under the request's key), a script of injected client failures, a
script of clock readings, and the logs of client calls and recorded events.

The store is a plain one: a write that goes through replaces the stored
metadata and spec (`Update`) or the stored status (`Status().Update`), and
nothing else writes the object.  The admission rules of an API server (such as
refusing a new finalizer on an object being deleted) and the removal of an
object whose last finalizer is gone are not part of the store; a refused call is
an injected failure.
-/

namespace PorchOperator

/-! ## Data model (`api/v1alpha1/packagerevision_types.go`) -/

/-- Go `metav1.Time`, as a number of seconds; `0` is the zero time. -/
abbrev Time := Nat

/-- Go `Time.IsZero`. -/
def Time.IsZero (t : Time) : Bool := t == 0

/-- Go `type PackageRevisionLifecycle string`. -/
abbrev PackageRevisionLifecycle := String

def PackageRevisionLifecycleDraft : PackageRevisionLifecycle := "Draft"
def PackageRevisionLifecycleProposed : PackageRevisionLifecycle := "Proposed"
def PackageRevisionLifecyclePublished : PackageRevisionLifecycle := "Published"
def PackageRevisionLifecycleDeletionProposed : PackageRevisionLifecycle := "DeletionProposed"

/-- Go `type TaskType string`. -/
abbrev TaskType := String

def TaskTypeInit : TaskType := "init"
def TaskTypeClone : TaskType := "clone"
def TaskTypeEdit : TaskType := "edit"
def TaskTypeUpgrade : TaskType := "upgrade"

/-- Go `type RepositoryType string`. -/
abbrev RepositoryType := String

def RepositoryTypeGit : RepositoryType := "git"
def RepositoryTypeOCI : RepositoryType := "oci"

/-- Go `type PackageMergeStrategy string`. -/
abbrev PackageMergeStrategy := String

def ResourceMerge : PackageMergeStrategy := "resource-merge"
def FastForward : PackageMergeStrategy := "fast-forward"
def ForceDeleteReplace : PackageMergeStrategy := "force-delete-replace"
def CopyMerge : PackageMergeStrategy := "copy-merge"

/-- Go `type OriginType string`. -/
abbrev OriginType := String

structure ParentReference where
  Name : String
  deriving DecidableEq, Repr

structure ReadinessGate where
  ConditionType : String
  deriving DecidableEq, Repr

structure PackageInitTaskSpec where
  Subpackage : String
  Description : String
  Keywords : List String
  Site : String
  deriving DecidableEq, Repr

structure SecretRef where
  Name : String
  deriving DecidableEq, Repr

structure GitPackage where
  Repo : String
  Ref : String
  Directory : String
  SecretRef : SecretRef
  deriving DecidableEq, Repr

structure OciPackage where
  Image : String
  deriving DecidableEq, Repr

structure PackageRevisionRef where
  Name : String
  deriving DecidableEq, Repr, Inhabited

/-- Go `UpstreamPackage`; the field `Type` is spelled `Type_`. -/
structure UpstreamPackage where
  Type_ : RepositoryType
  Git : Option GitPackage
  Oci : Option OciPackage
  UpstreamRef : Option PackageRevisionRef
  deriving DecidableEq, Repr, Inhabited

structure PackageCloneTaskSpec where
  Upstream : UpstreamPackage
  Strategy : PackageMergeStrategy
  deriving DecidableEq, Repr, Inhabited

structure PackageUpgradeTaskSpec where
  OldUpstream : PackageRevisionRef
  NewUpstream : PackageRevisionRef
  LocalPackageRevisionRef : PackageRevisionRef
  Strategy : PackageMergeStrategy
  deriving DecidableEq, Repr, Inhabited

structure PackageEditTaskSpec where
  Source : Option PackageRevisionRef
  deriving DecidableEq, Repr

/-- Go `Task`; the field `Type` is spelled `Type_`. -/
structure Task where
  Type_ : TaskType
  Init : Option PackageInitTaskSpec
  Clone : Option PackageCloneTaskSpec
  Edit : Option PackageEditTaskSpec
  Upgrade : Option PackageUpgradeTaskSpec
  deriving DecidableEq, Repr

structure GitLock where
  Repo : String
  Directory : String
  Ref : String
  Commit : String
  deriving DecidableEq, Repr

/-- Go `UpstreamLock`; the field `Type` is spelled `Type_`. -/
structure UpstreamLock where
  Type_ : OriginType
  Git : Option GitLock
  deriving DecidableEq, Repr

structure PackageRevisionSpec where
  PackageName : String
  RepositoryName : String
  WorkspaceName : String
  Revision : Int
  Parent : Option ParentReference
  Lifecycle : PackageRevisionLifecycle
  Tasks : List Task
  ReadinessGates : List ReadinessGate
  deriving DecidableEq, Repr

/-- Go `metav1.ConditionStatus`, a string type. -/
abbrev ConditionStatus := String

def ConditionTrue : ConditionStatus := "True"
def ConditionFalse : ConditionStatus := "False"
def ConditionUnknown : ConditionStatus := "Unknown"

/-- Go `metav1.Condition`; the field `Type` is spelled `Type_`. -/
structure Condition where
  Type_ : String
  Status : ConditionStatus
  ObservedGeneration : Int
  LastTransitionTime : Time
  Reason : String
  Message : String
  deriving DecidableEq, Repr

structure PackageRevisionStatus where
  UpstreamLock : Option UpstreamLock
  PublishedBy : String
  PublishedAt : Time
  Deployment : Bool
  Conditions : List Condition
  deriving DecidableEq, Repr

/-- Go `PackageRevision`.  Of the embedded `metav1.ObjectMeta` the fields the
controller reads or writes are kept: `Name`, `Namespace`, `DeletionTimestamp`
and `Finalizers`. -/
structure PackageRevision where
  Name : String
  Namespace : String
  DeletionTimestamp : Option Time
  Finalizers : List String
  Spec : PackageRevisionSpec
  Status : PackageRevisionStatus
  deriving DecidableEq, Repr

/-- The zero value of Go `UpstreamPackage`. -/
def UpstreamPackage.zero : UpstreamPackage :=
  { Type_ := "", Git := none, Oci := none, UpstreamRef := none }

/-- The zero value of Go `PackageRevisionRef`. -/
def PackageRevisionRef.zero : PackageRevisionRef := { Name := "" }

/-- The zero value of Go `PackageCloneTaskSpec`: what decoding yields when the
keys `upstreamRef` and `strategy` are omitted. -/
def PackageCloneTaskSpec.zero : PackageCloneTaskSpec :=
  { Upstream := UpstreamPackage.zero, Strategy := "" }

/-- The zero value of Go `PackageUpgradeTaskSpec`. -/
def PackageUpgradeTaskSpec.zero : PackageUpgradeTaskSpec :=
  { OldUpstream := PackageRevisionRef.zero, NewUpstream := PackageRevisionRef.zero,
    LocalPackageRevisionRef := PackageRevisionRef.zero, Strategy := "" }

/-- The four merge strategies the types file declares. -/
def declaredMergeStrategies : List PackageMergeStrategy :=
  [ResourceMerge, FastForward, ForceDeleteReplace, CopyMerge]

/-- The zero value of Go `PackageRevisionSpec`. -/
def PackageRevisionSpec.zero : PackageRevisionSpec :=
  { PackageName := "", RepositoryName := "", WorkspaceName := "", Revision := 0,
    Parent := none, Lifecycle := "", Tasks := [], ReadinessGates := [] }

/-- The zero value of Go `PackageRevisionStatus`. -/
def PackageRevisionStatus.zero : PackageRevisionStatus :=
  { UpstreamLock := none, PublishedBy := "", PublishedAt := 0, Deployment := false,
    Conditions := [] }

/-! ## The collaborators outside the repository

`sigs.k8s.io/controller-runtime` (client, `controllerutil`),
`k8s.io/apimachinery` (`meta.SetStatusCondition`, `apierrors.IsNotFound`) and
`k8s.io/client-go/tools/record` are not part of the repository.  The model
below follows their documented behaviour. -/

/-- Go `error` values the reconciler can see: an API status error with its
`metav1.StatusReason`, or an error built by `fmt.Errorf`. -/
inductive Error where
  | api (reason : String) (message : String)
  | errorf (message : String)
  deriving DecidableEq, Repr

/-- Go `apierrors.IsNotFound`: the status reason is `NotFound`. -/
def IsNotFound : Error → Bool
  | .api reason _ => reason == "NotFound"
  | .errorf _ => false

/-- Go `types.NamespacedName`. -/
structure NamespacedName where
  Namespace : String
  Name : String
  deriving DecidableEq, Repr

/-- Go `ctrl.Request`. -/
structure Request where
  NamespacedName : NamespacedName
  deriving DecidableEq, Repr

/-- Go `ctrl.Result`. -/
structure Result where
  Requeue : Bool
  RequeueAfter : Nat
  deriving DecidableEq, Repr

/-- Go `ctrl.Result{}`. -/
def Result.empty : Result := { Requeue := false, RequeueAfter := 0 }

/-- A call on the API client, with the object handed to a write. -/
inductive Call where
  | get (key : NamespacedName)
  | update (obj : PackageRevision)
  | statusUpdate (obj : PackageRevision)
  deriving DecidableEq, Repr

/-- An event handed to `record.EventRecorder.Event`: the namespace and name of
the object it is about, and the three strings. -/
structure Event where
  Namespace : String
  Name : String
  eventtype : String
  reason : String
  message : String
  deriving DecidableEq, Repr

/-- The environment of one reconciliation.

* `store`: the object the API server holds under the request's key, if any;
* `faults`: the injected outcome of each successive client call, `none` for
  "the call goes through", `some err` for "the call returns `err`"; calls
  beyond the end of the script go through;
* `clock`: the successive readings of `time.Now()`; readings beyond the end of
  the script are `0`;
* `calls`: the client calls issued so far, each with the error it returned;
* `events`: the events recorded so far. -/
structure World where
  store : Option PackageRevision
  faults : List (Option Error)
  clock : List Time
  calls : List (Call × Option Error)
  events : List Event
  deriving DecidableEq, Repr

/-- Take the outcome scripted for the next client call. -/
def World.popFault (w : World) : Option Error × World :=
  (w.faults.headD none, { w with faults := w.faults.tail })

/-- Append a client call and its outcome to the log. -/
def World.record (w : World) (c : Call) (r : Option Error) : World :=
  { w with calls := w.calls ++ [(c, r)] }

/-- Go `time.Now()`. -/
def World.now (w : World) : Time × World :=
  (w.clock.headD 0, { w with clock := w.clock.tail })

/-- The error the API server answers for an absent object. -/
def notFoundError (key : NamespacedName) : Error :=
  .api "NotFound" ("packagerevisions.cache.example.com " ++ key.Name ++ " not found")

/-- The key of an object. -/
def PackageRevision.key (obj : PackageRevision) : NamespacedName :=
  { Namespace := obj.Namespace, Name := obj.Name }

/-- Go `client.Get`: the stored object, or a NotFound error when there is none. -/
def Get (key : NamespacedName) (w : World) : Except Error PackageRevision × World :=
  match w.popFault with
  | (some err, w) => (.error err, w.record (.get key) (some err))
  | (none, w) =>
    match w.store with
    | none => (.error (notFoundError key), w.record (.get key) (some (notFoundError key)))
    | some obj => (.ok obj, w.record (.get key) none)

/-- Go `client.Update` on a type with the status subresource: metadata and
spec are written, the stored status is kept; the caller's object becomes the
stored object. -/
def Update (obj : PackageRevision) (w : World) : Except Error PackageRevision × World :=
  match w.popFault with
  | (some err, w) => (.error err, w.record (.update obj) (some err))
  | (none, w) =>
    match w.store with
    | none => (.error (notFoundError obj.key), w.record (.update obj) (some (notFoundError obj.key)))
    | some cur =>
      let new := { obj with Status := cur.Status }
      (.ok new, { w with store := some new }.record (.update obj) none)

/-- Go `client.Status().Update`: only the status is written; the caller's
object becomes the stored object. -/
def StatusUpdate (obj : PackageRevision) (w : World) : Except Error PackageRevision × World :=
  match w.popFault with
  | (some err, w) => (.error err, w.record (.statusUpdate obj) (some err))
  | (none, w) =>
    match w.store with
    | none =>
      (.error (notFoundError obj.key), w.record (.statusUpdate obj) (some (notFoundError obj.key)))
    | some cur =>
      let new := { cur with Status := obj.Status }
      (.ok new, { w with store := some new }.record (.statusUpdate obj) none)

/-- Go `record.EventRecorder.Event`. -/
def RecorderEvent (object : PackageRevision) (eventtype reason message : String)
    (w : World) : World :=
  { w with events := w.events ++
      [{ Namespace := object.Namespace, Name := object.Name, eventtype := eventtype,
         reason := reason, message := message }] }

/-- Go `meta.FindStatusCondition`: the first condition of the given type. -/
def FindStatusCondition (conditions : List Condition) (conditionType : String) :
    Option Condition :=
  conditions.find? (fun c => c.Type_ == conditionType)

/-- The write through the pointer `FindStatusCondition` returns: the first
condition of the given type is replaced. -/
def storeCondition (conditions : List Condition) (conditionType : String) (c : Condition) :
    List Condition :=
  match conditions with
  | [] => []
  | x :: xs =>
    if x.Type_ == conditionType then c :: xs else x :: storeCondition xs conditionType c

/-- Go `meta.SetStatusCondition` (the returned `changed` flag, which the
controller ignores, is left out).  A condition of a new type is appended, with
the current time when it carries none.  Otherwise the first condition of that
type is updated in place: a changed status also moves the last transition time;
reason, message and observed generation are overwritten. -/
def SetStatusCondition (conditions : List Condition) (newCondition : Condition) (w : World) :
    List Condition × World :=
  match FindStatusCondition conditions newCondition.Type_ with
  | none =>
    if newCondition.LastTransitionTime.IsZero then
      (conditions ++ [{ newCondition with LastTransitionTime := w.now.1 }], w.now.2)
    else
      (conditions ++ [newCondition], w)
  | some existingCondition =>
    let (existingCondition, w) :=
      if existingCondition.Status != newCondition.Status then
        if !newCondition.LastTransitionTime.IsZero then
          ({ existingCondition with
             Status := newCondition.Status
             LastTransitionTime := newCondition.LastTransitionTime }, w)
        else
          ({ existingCondition with
             Status := newCondition.Status
             LastTransitionTime := w.now.1 }, w.now.2)
      else (existingCondition, w)
    let existingCondition :=
      if existingCondition.Reason != newCondition.Reason then
        { existingCondition with Reason := newCondition.Reason }
      else existingCondition
    let existingCondition :=
      if existingCondition.Message != newCondition.Message then
        { existingCondition with Message := newCondition.Message }
      else existingCondition
    let existingCondition :=
      if existingCondition.ObservedGeneration != newCondition.ObservedGeneration then
        { existingCondition with ObservedGeneration := newCondition.ObservedGeneration }
      else existingCondition
    (storeCondition conditions newCondition.Type_ existingCondition, w)

/-- Go `controllerutil.ContainsFinalizer`. -/
def ContainsFinalizer (o : PackageRevision) (finalizer : String) : Bool :=
  o.Finalizers.contains finalizer

/-- Go `controllerutil.AddFinalizer`: append unless present; reports whether
the list was updated. -/
def AddFinalizer (o : PackageRevision) (finalizer : String) : PackageRevision × Bool :=
  if o.Finalizers.contains finalizer then (o, false)
  else ({ o with Finalizers := o.Finalizers ++ [finalizer] }, true)

/-- Go `controllerutil.RemoveFinalizer`: drop every occurrence; reports whether
the list got shorter. -/
def RemoveFinalizer (o : PackageRevision) (finalizer : String) : PackageRevision × Bool :=
  let f := o.Finalizers.filter (fun x => x != finalizer)
  ({ o with Finalizers := f }, o.Finalizers.length != f.length)

/-- Write a condition list into an object: the effect of handing
`&PackageRevision.Status.Conditions` to `meta.SetStatusCondition`. -/
def PackageRevision.withConditions (obj : PackageRevision) (cs : List Condition) :
    PackageRevision :=
  { obj with Status := { obj.Status with Conditions := cs } }

/-! ## The controller (`internal/controller/packagerevision_controller.go`) -/

def PackageRevisionFinalizer : String := "cache.example.com/finalizer"

/-- The condition type for the status of the reconciliation. -/
def typeAvailablePackageRevision : String := "Available"

/-- The condition type used while the custom resource is being deleted. -/
def typeDegradedPackageRevision : String := "Degraded"

/-- Go `doFinalizerOperationsForPackageRevision` (lines 215-232): raise the
`Deleting` warning event. -/
def doFinalizerOperationsForPackageRevision (cr : PackageRevision) (w : World) : World :=
  RecorderEvent cr "Warning" "Deleting"
    ("Custom Resource " ++ cr.Name ++ " is being deleted from the namespace " ++ cr.Namespace) w

/-- The condition literal of line 102. -/
def startingCondition : Condition :=
  { Type_ := typeAvailablePackageRevision, Status := ConditionUnknown, ObservedGeneration := 0,
    LastTransitionTime := 0, Reason := "Reconciling", Message := "Starting reconciliation" }

/-- The condition literal of lines 144-146. -/
def finalizingCondition (cr : PackageRevision) : Condition :=
  { Type_ := typeDegradedPackageRevision, Status := ConditionUnknown, ObservedGeneration := 0,
    LastTransitionTime := 0, Reason := "Finalizing",
    Message := "Performing finalizer operations for the custom resource: " ++ cr.Name ++ " " }

/-- The condition literal of lines 170-172. -/
def finalizedCondition (cr : PackageRevision) : Condition :=
  { Type_ := typeDegradedPackageRevision, Status := ConditionTrue, ObservedGeneration := 0,
    LastTransitionTime := 0, Reason := "Finalizing",
    Message := "Finalizer operations for custom resource " ++ cr.Name ++
      " name were successfully accomplished" }

/-- The condition literal of lines 202-204. -/
def availableCondition (cr : PackageRevision) : Condition :=
  { Type_ := typeAvailablePackageRevision, Status := ConditionTrue, ObservedGeneration := 0,
    LastTransitionTime := 0, Reason := "Reconciling",
    Message := "Deployment for custom resource (" ++ cr.Name ++ ") with " ++
      cr.Spec.Lifecycle ++ " lifecycle successful" }

/-- Lines 100-117 of `Reconcile`: set the status as Unknown when no status is
available, then re-fetch. -/
def Reconcile.initStatus (req : Request) (cr : PackageRevision) (w : World) :
    Except Error PackageRevision × World :=
  if cr.Status.Conditions.length == 0 then
    let s := SetStatusCondition cr.Status.Conditions startingCondition w
    match StatusUpdate (cr.withConditions s.1) s.2 with
    | (.error err, w) => (.error err, w)
    | (.ok _, w) => Get req.NamespacedName w
  else (.ok cr, w)

/-- Lines 119-134 of `Reconcile`: add the finalizer when it is absent. -/
def Reconcile.addFinalizer (cr : PackageRevision) (w : World) :
    Except Error PackageRevision × World :=
  if !ContainsFinalizer cr PackageRevisionFinalizer then
    let r := AddFinalizer cr PackageRevisionFinalizer
    if !r.2 then (.error (.errorf "finalizer for PackageRevision was not added"), w)
    else Update r.1 w
  else (.ok cr, w)

/-- Lines 140-190 of `Reconcile`: the finalizer operations of an object marked
for deletion. -/
def Reconcile.finalize (req : Request) (cr : PackageRevision) (w : World) :
    Except Error PackageRevision × World :=
  if ContainsFinalizer cr PackageRevisionFinalizer then
    let s := SetStatusCondition cr.Status.Conditions (finalizingCondition cr) w
    match StatusUpdate (cr.withConditions s.1) s.2 with
    | (.error err, w) => (.error err, w)
    | (.ok cr, w) =>
      match Get req.NamespacedName (doFinalizerOperationsForPackageRevision cr w) with
      | (.error err, w) => (.error err, w)
      | (.ok cr, w) =>
        let s := SetStatusCondition cr.Status.Conditions (finalizedCondition cr) w
        match StatusUpdate (cr.withConditions s.1) s.2 with
        | (.error err, w) => (.error err, w)
        | (.ok cr, w) =>
          let r := RemoveFinalizer cr PackageRevisionFinalizer
          if !r.2 then (.error (.errorf "finalizer for PackageRevision was not removed"), w)
          else Update r.1 w
  else (.ok cr, w)

/-- Lines 194-211 of `Reconcile`: report the Available condition. -/
def Reconcile.available (cr : PackageRevision) (w : World) :
    Except Error PackageRevision × World :=
  let s := SetStatusCondition cr.Status.Conditions (availableCondition cr) w
  StatusUpdate (cr.withConditions s.1) s.2

/-- Go `PackageRevisionReconciler.Reconcile` (lines 80-212).  The result is the
pair Go returns, `(ctrl.Result, error)` with `none` for a nil error, and the
world the run leaves behind. -/
def Reconcile (req : Request) (w : World) : (Result × Option Error) × World :=
  match Get req.NamespacedName w with
  | (.error err, w) =>
    if IsNotFound err then ((Result.empty, none), w)
    else ((Result.empty, some err), w)
  | (.ok cr, w) =>
    match Reconcile.initStatus req cr w with
    | (.error err, w) => ((Result.empty, some err), w)
    | (.ok cr, w) =>
      match Reconcile.addFinalizer cr w with
      | (.error err, w) => ((Result.empty, some err), w)
      | (.ok cr, w) =>
        if cr.DeletionTimestamp.isSome then
          match Reconcile.finalize req cr w with
          | (.error err, w) => ((Result.empty, some err), w)
          | (.ok _, w) => ((Result.empty, none), w)
        else
          match Reconcile.available cr w with
          | (.error err, w) => ((Result.empty, some err), w)
          | (.ok _, w) => ((Result.empty, none), w)

/-! ## Auxiliary notions used to state and prove the properties -/

/-- The list `meta.SetStatusCondition` leaves behind when the clock reads `now`. -/
def setConditionAt (conditions : List Condition) (newCondition : Condition) (now : Time) :
    List Condition :=
  (SetStatusCondition conditions newCondition
    { store := none, faults := [], clock := [now], calls := [], events := [] }).1

/-- Whether `meta.SetStatusCondition` reads the clock: it does for a condition
of a new type that carries no time, and for a status change. -/
def readsClock (conditions : List Condition) (newCondition : Condition) : Bool :=
  match FindStatusCondition conditions newCondition.Type_ with
  | none => newCondition.LastTransitionTime.IsZero
  | some existingCondition =>
    existingCondition.Status != newCondition.Status && newCondition.LastTransitionTime.IsZero

/-- The injected outcomes of the first `k` client calls are all "goes through". -/
def succeedFor (k : Nat) (faults : List (Option Error)) : Prop :=
  ∀ f ∈ faults.take k, f = none

/-- Every client call goes through. -/
def allSucceed (faults : List (Option Error)) : Prop :=
  ∀ f ∈ faults, f = none

instance (k : Nat) (faults : List (Option Error)) : Decidable (succeedFor k faults) := by
  unfold succeedFor
  infer_instance

instance (faults : List (Option Error)) : Decidable (allSucceed faults) := by
  unfold allSucceed
  infer_instance

/-- The conditions after lines 100-117 when every call goes through and the
clock reads `t1`: an empty list receives the starting condition. -/
def initialisedConditions (cs : List Condition) (t1 : Time) : List Condition :=
  if cs.length == 0 then setConditionAt cs startingCondition t1 else cs

/-- The finalizers after lines 119-134 when every call goes through. -/
def ensuredFinalizers (fs : List String) : List String :=
  if fs.contains PackageRevisionFinalizer then fs else fs ++ [PackageRevisionFinalizer]

/-- The object a run on `cr`, not marked for deletion, stores when every call
goes through and the clock reads `t1`, `t2`. -/
def liveOutcome (cr : PackageRevision) (t1 t2 : Time) : PackageRevision :=
  { cr with
    Finalizers := ensuredFinalizers cr.Finalizers
    Status := { cr.Status with
      Conditions :=
        setConditionAt (initialisedConditions cr.Status.Conditions t1) (availableCondition cr) t2 } }

/-- The object a run on `cr`, marked for deletion, stores when every call goes
through and the clock reads `t1`, `t2`, `t3`. -/
def deletedOutcome (cr : PackageRevision) (t1 t2 t3 : Time) : PackageRevision :=
  { cr with
    Finalizers := cr.Finalizers.filter (fun x => x != PackageRevisionFinalizer)
    Status := { cr.Status with
      Conditions :=
        setConditionAt
          (setConditionAt (initialisedConditions cr.Status.Conditions t1)
            (finalizingCondition cr) t2)
          (finalizedCondition cr) t3 } }

/-- The event `doFinalizerOperationsForPackageRevision` records for `cr`. -/
def deletingEvent (cr : PackageRevision) : Event :=
  { Namespace := cr.Namespace, Name := cr.Name, eventtype := "Warning", reason := "Deleting",
    message := "Custom Resource " ++ cr.Name ++ " is being deleted from the namespace " ++
      cr.Namespace }

/-- The number of client calls lines 100-117 issue when they go through. -/
def initCalls (cr : PackageRevision) : Nat :=
  if cr.Status.Conditions.length == 0 then 2 else 0

/-- The number of client calls lines 119-134 issue when they go through. -/
def finalizerCalls (cr : PackageRevision) : Nat :=
  if cr.Finalizers.contains PackageRevisionFinalizer then 0 else 1

/-- The object held, locally and in the store, once lines 80-134 went through
with the clock reading `t1`. -/
def preparedObject (cr : PackageRevision) (t1 : Time) : PackageRevision :=
  { cr with
    Finalizers := ensuredFinalizers cr.Finalizers
    Status := { cr.Status with
      Conditions := initialisedConditions cr.Status.Conditions t1 } }

/-- What `meta.SetStatusCondition` turns the existing condition `e` into when
handed `c` with the clock reading `now`. -/
def mergedCondition (e c : Condition) (now : Time) : Condition :=
  { Type_ := e.Type_
    Status := c.Status
    ObservedGeneration := c.ObservedGeneration
    LastTransitionTime :=
      if e.Status != c.Status then
        (if !c.LastTransitionTime.IsZero then c.LastTransitionTime else now)
      else e.LastTransitionTime
    Reason := c.Reason
    Message := c.Message }

/-- The object of the first `Degraded` status update (lines 144-148), the clock
reading `t2`. -/
def finalizingObject (cr : PackageRevision) (t2 : Time) : PackageRevision :=
  cr.withConditions (setConditionAt cr.Status.Conditions (finalizingCondition cr) t2)

/-- The object of the second `Degraded` status update (lines 170-174), the
clock reading `t2`, then `t3`. -/
def finalizedObject (cr : PackageRevision) (t2 t3 : Time) : PackageRevision :=
  (finalizingObject cr t2).withConditions
    (setConditionAt (finalizingObject cr t2).Status.Conditions (finalizedCondition cr) t3)

/-- The object of the closing `Update` (lines 180-186): the finalizer is gone. -/
def releasedObject (cr : PackageRevision) (t2 t3 : Time) : PackageRevision :=
  { finalizedObject cr t2 t3 with
    Finalizers := cr.Finalizers.filter (fun x => x != PackageRevisionFinalizer) }

/-! ### The runs of `Reconcile`, as relations on the calls issued

Each relation lists, for one stretch of `Reconcile`, the client calls it can
issue (with the error each returned) next to the result of the stretch. -/

/-- The object of the status update of line 103, the clock reading `t`. -/
def startedObject (cr : PackageRevision) (t : Time) : PackageRevision :=
  cr.withConditions (setConditionAt [] startingCondition t)

/-- The object of the `Update` of line 130. -/
def guardedObject (cr : PackageRevision) : PackageRevision :=
  { cr with Finalizers := cr.Finalizers ++ [PackageRevisionFinalizer] }

/-- The object of the status update of line 206, the clock reading `t`. -/
def reportedObject (cr : PackageRevision) (t : Time) : PackageRevision :=
  cr.withConditions (setConditionAt cr.Status.Conditions (availableCondition cr) t)

/-- The runs of lines 100-117 on the fetched object `cr`. -/
def InitRun (req : Request) (cr : PackageRevision) (l : List (Call × Option Error))
    (r : Except Error PackageRevision) : Prop :=
  (cr.Status.Conditions ≠ [] ∧ r = .ok cr ∧ l = []) ∨
  (cr.Status.Conditions = [] ∧ ∃ t : Time,
    ((∃ e, r = .error e ∧ l = [(.statusUpdate (startedObject cr t), some e)]) ∨
     (∃ e, r = .error e ∧
        l = [(.statusUpdate (startedObject cr t), none), (.get req.NamespacedName, some e)]) ∨
     (r = .ok (startedObject cr t) ∧
        l = [(.statusUpdate (startedObject cr t), none), (.get req.NamespacedName, none)])))

/-- The runs of lines 119-134 on the object `cr`. -/
def AddRun (cr : PackageRevision) (l : List (Call × Option Error))
    (r : Except Error PackageRevision) : Prop :=
  (PackageRevisionFinalizer ∈ cr.Finalizers ∧ r = .ok cr ∧ l = []) ∨
  (PackageRevisionFinalizer ∉ cr.Finalizers ∧
    ((∃ e, r = .error e ∧ l = [(.update (guardedObject cr), some e)]) ∨
     (r = .ok (guardedObject cr) ∧ l = [(.update (guardedObject cr), none)])))

/-- The runs of lines 140-190 on the object `cr`, with the events recorded. -/
def FinalizeRun (req : Request) (cr : PackageRevision) (l : List (Call × Option Error))
    (ev : List Event) (r : Except Error PackageRevision) : Prop :=
  ∃ t2 t3 : Time,
    (∃ e, r = .error e ∧ ev = [] ∧
      l = [(.statusUpdate (finalizingObject cr t2), some e)]) ∨
    (∃ e, r = .error e ∧ ev = [deletingEvent cr] ∧
      l = [(.statusUpdate (finalizingObject cr t2), none),
           (.get req.NamespacedName, some e)]) ∨
    (∃ e, r = .error e ∧ ev = [deletingEvent cr] ∧
      l = [(.statusUpdate (finalizingObject cr t2), none),
           (.get req.NamespacedName, none),
           (.statusUpdate (finalizedObject cr t2 t3), some e)]) ∨
    (∃ e, r = .error e ∧ ev = [deletingEvent cr] ∧
      l = [(.statusUpdate (finalizingObject cr t2), none),
           (.get req.NamespacedName, none),
           (.statusUpdate (finalizedObject cr t2 t3), none),
           (.update (releasedObject cr t2 t3), some e)]) ∨
    (r = .ok (releasedObject cr t2 t3) ∧ ev = [deletingEvent cr] ∧
      l = [(.statusUpdate (finalizingObject cr t2), none),
           (.get req.NamespacedName, none),
           (.statusUpdate (finalizedObject cr t2 t3), none),
           (.update (releasedObject cr t2 t3), none)])

/-- The runs of lines 194-211 on the object `cr`. -/
def AvailableRun (cr : PackageRevision) (l : List (Call × Option Error))
    (r : Except Error PackageRevision) : Prop :=
  ∃ t : Time,
    (∃ e, r = .error e ∧ l = [(.statusUpdate (reportedObject cr t), some e)]) ∨
    (r = .ok (reportedObject cr t) ∧ l = [(.statusUpdate (reportedObject cr t), none)])

/-- The error `Reconcile` returns after a stretch that ended with `r`. -/
def errorOf (r : Except Error PackageRevision) : Option Error :=
  match r with
  | .error e => some e
  | .ok _ => none

/-- The runs of `Reconcile` against a store holding `store`: the calls issued,
the events recorded and the error returned. -/
def ReconcileRun (req : Request) (store : Option PackageRevision)
    (l : List (Call × Option Error)) (ev : List Event) (err : Option Error) : Prop :=
  (∃ e, l = [(.get req.NamespacedName, some e)] ∧ ev = [] ∧
    err = if IsNotFound e then none else some e) ∨
  (∃ cr l1 r1, store = some cr ∧ InitRun req cr l1 r1 ∧
    ((∃ e, r1 = .error e ∧ l = (.get req.NamespacedName, none) :: l1 ∧ ev = [] ∧
        err = some e) ∨
     (∃ cr1 l2 r2, r1 = .ok cr1 ∧ AddRun cr1 l2 r2 ∧
       ((∃ e, r2 = .error e ∧ l = (.get req.NamespacedName, none) :: (l1 ++ l2) ∧ ev = [] ∧
          err = some e) ∨
        (∃ cr2 l3 r3, r2 = .ok cr2 ∧
          l = (.get req.NamespacedName, none) :: (l1 ++ l2 ++ l3) ∧ err = errorOf r3 ∧
          ((cr2.DeletionTimestamp.isSome = true ∧ FinalizeRun req cr2 l3 ev r3) ∨
           (cr2.DeletionTimestamp.isSome = false ∧ ev = [] ∧ AvailableRun cr2 l3 r3)))))))

/-! ### Comparing runs on objects that differ in their `Spec` -/

/-- The object with its `Spec` replaced. -/
def PackageRevision.withSpec (o : PackageRevision) (s : PackageRevisionSpec) : PackageRevision :=
  { o with Spec := s }

/-- The call with the `Spec` of the object it hands over replaced. -/
def Call.withSpec (c : Call) (s : PackageRevisionSpec) : Call :=
  match c with
  | .get key => .get key
  | .update obj => .update (obj.withSpec s)
  | .statusUpdate obj => .statusUpdate (obj.withSpec s)

/-- A log of calls with the `Spec` of every object handed over blanked: the
sequence of calls, the metadata and status they carry, and their outcomes. -/
def callShapes (l : List (Call × Option Error)) : List (Call × Option Error) :=
  l.map (fun x => (x.1.withSpec PackageRevisionSpec.zero, x.2))

/-- Two worlds that agree but for the `Spec` of the objects they hold, which is
`s` throughout the second. -/
def SpecSim (s : PackageRevisionSpec) (w1 w2 : World) : Prop :=
  w2.store = w1.store.map (fun o => o.withSpec s) ∧ w2.faults = w1.faults ∧
  w2.clock = w1.clock ∧ w2.events = w1.events ∧ callShapes w2.calls = callShapes w1.calls

/-! ### Comparing stored objects up to the last transition times -/

/-- The condition with its last transition time blanked. -/
def Condition.withoutTime (c : Condition) : Condition :=
  { c with LastTransitionTime := 0 }

/-- The object with the last transition time of every condition blanked: its
metadata, its spec, and the type, status, reason, message and observed
generation of each condition are kept. -/
def PackageRevision.withoutTimes (o : PackageRevision) : PackageRevision :=
  o.withConditions (o.Status.Conditions.map Condition.withoutTime)

/-! ### Concrete inputs -/

/-- A request for the object `pkg` in the namespace `default`. -/
def exampleRequest : Request :=
  { NamespacedName := { Namespace := "default", Name := "pkg" } }

/-- A draft revision: no finalizer, no condition, not marked for deletion. -/
def exampleObject : PackageRevision :=
  { Name := "pkg", Namespace := "default", DeletionTimestamp := none, Finalizers := [],
    Spec := { PackageRevisionSpec.zero with
      PackageName := "pkg", Lifecycle := PackageRevisionLifecycleDraft },
    Status := PackageRevisionStatus.zero }

/-- The same revision marked for deletion, holding the controller's finalizer
and one of another controller. -/
def exampleDeleted : PackageRevision :=
  { exampleObject with
    DeletionTimestamp := some 9
    Finalizers := ["example.com/other", PackageRevisionFinalizer] }

/-- The same revision with the `Available` condition stored twice. -/
def exampleDuplicated : PackageRevision :=
  { exampleObject with
    Status := { PackageRevisionStatus.zero with
      Conditions := [availableCondition exampleObject, availableCondition exampleObject] } }

/-- The same revision with a `Spec` the schema annotations rule out: a revision
below `-1` and an `init` task that carries a clone specification. -/
def exampleMalformed : PackageRevision :=
  { exampleObject with
    Spec := { exampleObject.Spec with
      Revision := -5
      Tasks := [{ Type_ := TaskTypeInit, Init := none,
                  Clone := some PackageCloneTaskSpec.zero, Edit := none, Upgrade := none }] } }

/-- An error other than NotFound. -/
def conflictError : Error := .api "Conflict" "the object has been modified"

/-- A world that stores `store`, answers the client calls as `faults` says, and
whose clock reads 1, 2, 3, ... -/
def exampleWorld (store : Option PackageRevision) (faults : List (Option Error)) : World :=
  { store := store, faults := faults, clock := [1, 2, 3, 4, 5, 6, 7, 8], calls := [],
    events := [] }

/-! ## Lemmas on the collaborators -/

theorem SetStatusCondition_eq (cs : List Condition) (c : Condition) (w : World) :
    SetStatusCondition cs c w =
      (setConditionAt cs c (w.clock.headD 0),
        { store := w.store, faults := w.faults,
          clock := if readsClock cs c then w.clock.tail else w.clock,
          calls := w.calls, events := w.events }) := by
  unfold setConditionAt readsClock SetStatusCondition
  cases hfind : FindStatusCondition cs c.Type_ with
  | none =>
    by_cases hz : c.LastTransitionTime.IsZero = true <;> simp [hz, World.now]
  | some e =>
    by_cases hst : e.Status = c.Status <;>
    by_cases hz : c.LastTransitionTime.IsZero = true <;> simp [hst, hz, World.now]

theorem Get_ok (key : NamespacedName) (w : World) (obj : PackageRevision)
    (h0 : w.faults.headD none = none) (hs : w.store = some obj) :
    Get key w = (.ok obj,
      { store := some obj, faults := w.faults.drop 1, clock := w.clock,
        calls := w.calls ++ [(.get key, none)], events := w.events }) := by
  simp only [Get, World.popFault, World.record, h0, hs, List.drop_one]

theorem StatusUpdate_ok (obj cur : PackageRevision) (w : World)
    (h0 : w.faults.headD none = none) (hs : w.store = some cur) :
    StatusUpdate obj w = (.ok { cur with Status := obj.Status },
      { store := some { cur with Status := obj.Status }, faults := w.faults.drop 1,
        clock := w.clock, calls := w.calls ++ [(.statusUpdate obj, none)],
        events := w.events }) := by
  simp only [StatusUpdate, World.popFault, World.record, h0, hs, List.drop_one]

theorem Update_ok (obj cur : PackageRevision) (w : World)
    (h0 : w.faults.headD none = none) (hs : w.store = some cur) :
    Update obj w = (.ok { obj with Status := cur.Status },
      { store := some { obj with Status := cur.Status }, faults := w.faults.drop 1,
        clock := w.clock, calls := w.calls ++ [(.update obj, none)],
        events := w.events }) := by
  simp only [Update, World.popFault, World.record, h0, hs, List.drop_one]

theorem succeedFor_headD_drop (k n : Nat) (faults : List (Option Error))
    (h : succeedFor k faults) (hn : n < k) : (faults.drop n).headD none = none := by
  induction faults generalizing k n with
  | nil => simp
  | cons a l ih =>
    cases k with
    | zero => omega
    | succ k =>
      cases n with
      | zero =>
        have : a = none := h a (by simp)
        simp [this]
      | succ n =>
        have hl : succeedFor k l := fun f hf => h f (by simp [hf])
        simpa using ih k n hl (by omega)

theorem allSucceed_succeedFor (k : Nat) (faults : List (Option Error))
    (h : allSucceed faults) : succeedFor k faults :=
  fun f hf => h f (List.mem_of_mem_take hf)

theorem allSucceed_drop (n : Nat) (faults : List (Option Error))
    (h : allSucceed faults) : allSucceed (faults.drop n) :=
  fun f hf => h f (List.mem_of_mem_drop hf)

theorem Get_mk (key : NamespacedName) (obj : PackageRevision) (faults : List (Option Error))
    (clock : List Time) (calls : List (Call × Option Error)) (events : List Event)
    (h0 : faults.headD none = none) :
    Get key ⟨some obj, faults, clock, calls, events⟩ = (.ok obj,
      ⟨some obj, faults.drop 1, clock, calls ++ [(.get key, none)], events⟩) :=
  Get_ok key _ obj h0 rfl

theorem StatusUpdate_mk (obj cur : PackageRevision) (faults : List (Option Error))
    (clock : List Time) (calls : List (Call × Option Error)) (events : List Event)
    (h0 : faults.headD none = none) :
    StatusUpdate obj ⟨some cur, faults, clock, calls, events⟩ =
      (.ok { cur with Status := obj.Status },
        ⟨some { cur with Status := obj.Status }, faults.drop 1, clock,
          calls ++ [(.statusUpdate obj, none)], events⟩) :=
  StatusUpdate_ok obj cur _ h0 rfl

theorem Update_mk (obj cur : PackageRevision) (faults : List (Option Error))
    (clock : List Time) (calls : List (Call × Option Error)) (events : List Event)
    (h0 : faults.headD none = none) :
    Update obj ⟨some cur, faults, clock, calls, events⟩ =
      (.ok { obj with Status := cur.Status },
        ⟨some { obj with Status := cur.Status }, faults.drop 1, clock,
          calls ++ [(.update obj, none)], events⟩) :=
  Update_ok obj cur _ h0 rfl

theorem allSucceed_headD_drop (faults : List (Option Error)) (h : allSucceed faults)
    (n : Nat) : (faults.drop n).headD none = none :=
  succeedFor_headD_drop (n + 1) n faults (allSucceed_succeedFor _ _ h) (by omega)

theorem length_eq_zero_false (cs : List Condition) (hc : cs ≠ []) :
    (cs.length == 0) = false := by
  cases cs with
  | nil => exact absurd rfl hc
  | cons a l => rfl

theorem initStatus_skip (req : Request) (cr : PackageRevision) (w : World)
    (hc : cr.Status.Conditions ≠ []) :
    Reconcile.initStatus req cr w = (.ok cr, w) := by
  simp only [Reconcile.initStatus, length_eq_zero_false _ hc, Bool.false_eq_true, if_false]

theorem initStatus_mk (req : Request) (cr : PackageRevision) (faults : List (Option Error))
    (clock : List Time) (calls : List (Call × Option Error)) (events : List Event)
    (hc : cr.Status.Conditions = [])
    (h0 : faults.headD none = none) (h1 : (faults.drop 1).headD none = none) :
    Reconcile.initStatus req cr ⟨some cr, faults, clock, calls, events⟩ =
      (.ok (cr.withConditions (setConditionAt [] startingCondition (clock.headD 0))),
        ⟨some (cr.withConditions (setConditionAt [] startingCondition (clock.headD 0))),
          faults.drop 2, clock.tail,
          calls ++
            [(.statusUpdate
                (cr.withConditions (setConditionAt [] startingCondition (clock.headD 0))), none),
             (.get req.NamespacedName, none)],
          events⟩) := by
  have hr : readsClock [] startingCondition = true := rfl
  simp only [Reconcile.initStatus, hc, List.length_nil, beq_self_eq_true, if_true,
    SetStatusCondition_eq, hr, StatusUpdate_mk, Get_mk, h0, h1, List.drop_drop,
    PackageRevision.withConditions, List.append_assoc, List.singleton_append]

theorem addFinalizer_skip (cr : PackageRevision) (w : World)
    (hfin : PackageRevisionFinalizer ∈ cr.Finalizers) :
    Reconcile.addFinalizer cr w = (.ok cr, w) := by
  simp [Reconcile.addFinalizer, ContainsFinalizer, hfin]

theorem addFinalizer_mk (cr : PackageRevision) (faults : List (Option Error))
    (clock : List Time) (calls : List (Call × Option Error)) (events : List Event)
    (hfin : PackageRevisionFinalizer ∉ cr.Finalizers)
    (h0 : faults.headD none = none) :
    Reconcile.addFinalizer cr ⟨some cr, faults, clock, calls, events⟩ =
      (.ok { cr with Finalizers := cr.Finalizers ++ [PackageRevisionFinalizer] },
        ⟨some { cr with Finalizers := cr.Finalizers ++ [PackageRevisionFinalizer] },
          faults.drop 1, clock,
          calls ++ [(.update { cr with Finalizers := cr.Finalizers ++ [PackageRevisionFinalizer] },
            none)],
          events⟩) := by
  have hcont : cr.Finalizers.contains PackageRevisionFinalizer = false := by
    simpa using hfin
  simp only [Reconcile.addFinalizer, ContainsFinalizer, AddFinalizer, hcont, Bool.not_false,
    if_true, Bool.false_eq_true, if_false, Bool.not_true, Update_mk, h0]

theorem available_mk (cr : PackageRevision) (faults : List (Option Error))
    (clock : List Time) (calls : List (Call × Option Error)) (events : List Event)
    (h0 : faults.headD none = none) :
    Reconcile.available cr ⟨some cr, faults, clock, calls, events⟩ =
      (.ok (cr.withConditions
          (setConditionAt cr.Status.Conditions (availableCondition cr) (clock.headD 0))),
        ⟨some (cr.withConditions
          (setConditionAt cr.Status.Conditions (availableCondition cr) (clock.headD 0))),
          faults.drop 1,
          if readsClock cr.Status.Conditions (availableCondition cr) then clock.tail else clock,
          calls ++ [(.statusUpdate (cr.withConditions
            (setConditionAt cr.Status.Conditions (availableCondition cr) (clock.headD 0))), none)],
          events⟩) := by
  simp only [Reconcile.available, SetStatusCondition_eq, StatusUpdate_mk, h0,
    PackageRevision.withConditions]

theorem length_filter_ne (fs : List String) (x : String) (h : x ∈ fs) :
    (fs.length != (fs.filter (fun y => y != x)).length) = true := by
  have hlt : (fs.filter (fun y => y != x)).length < fs.length := by
    apply List.length_filter_lt_length_iff_exists.mpr
    exact ⟨x, h, by simp⟩
  simp only [bne_iff_ne, ne_eq]
  omega

theorem finalize_skip (req : Request) (cr : PackageRevision) (w : World)
    (hfin : PackageRevisionFinalizer ∉ cr.Finalizers) :
    Reconcile.finalize req cr w = (.ok cr, w) := by
  simp [Reconcile.finalize, ContainsFinalizer, hfin]

theorem finalize_mk (req : Request) (cr : PackageRevision) (faults : List (Option Error))
    (clock : List Time) (calls : List (Call × Option Error)) (events : List Event)
    (hfin : PackageRevisionFinalizer ∈ cr.Finalizers)
    (h0 : faults.headD none = none) (h1 : (faults.drop 1).headD none = none)
    (h2 : (faults.drop 2).headD none = none) (h3 : (faults.drop 3).headD none = none) :
    ∃ t2 t3 : Time, ∃ clock' : List Time, ∃ l : List (Call × Option Error),
      Reconcile.finalize req cr ⟨some cr, faults, clock, calls, events⟩ =
        (.ok { cr with
            Finalizers := cr.Finalizers.filter (fun x => x != PackageRevisionFinalizer)
            Status := { cr.Status with
              Conditions := setConditionAt
                (setConditionAt cr.Status.Conditions (finalizingCondition cr) t2)
                (finalizedCondition cr) t3 } },
          ⟨some { cr with
            Finalizers := cr.Finalizers.filter (fun x => x != PackageRevisionFinalizer)
            Status := { cr.Status with
              Conditions := setConditionAt
                (setConditionAt cr.Status.Conditions (finalizingCondition cr) t2)
                (finalizedCondition cr) t3 } },
            faults.drop 4, clock', calls ++ l,
            events ++ [deletingEvent cr]⟩) := by
  have hcont : cr.Finalizers.contains PackageRevisionFinalizer = true := by
    simpa using hfin
  have hlen := length_filter_ne cr.Finalizers PackageRevisionFinalizer hfin
  simp only [Reconcile.finalize, ContainsFinalizer, hcont, if_true, SetStatusCondition_eq,
    StatusUpdate_mk, Get_mk, Update_mk, h0, h1, h2, h3, List.drop_drop,
    PackageRevision.withConditions, doFinalizerOperationsForPackageRevision, RecorderEvent,
    RemoveFinalizer, hlen, Bool.not_true, Bool.false_eq_true, if_false, List.append_assoc,
    finalizingCondition, finalizedCondition, deletingEvent]
  exact ⟨_, _, _, _, rfl⟩

/-- The two ways `Get` can end. -/
theorem Get_cases (key : NamespacedName) (w : World) :
    (∃ obj, w.store = some obj ∧ w.faults.headD none = none ∧
      Get key w = (.ok obj,
        { store := w.store, faults := w.faults.drop 1, clock := w.clock,
          calls := w.calls ++ [(.get key, none)], events := w.events })) ∨
    (∃ e, Get key w = (.error e,
        { store := w.store, faults := w.faults.drop 1, clock := w.clock,
          calls := w.calls ++ [(.get key, some e)], events := w.events })) := by
  cases hp : w.faults.headD none with
  | some err =>
    exact Or.inr ⟨err, by simp only [Get, World.popFault, World.record, hp, List.drop_one]⟩
  | none =>
    cases hst : w.store with
    | none =>
      exact Or.inr ⟨notFoundError key, by
        simp only [Get, World.popFault, World.record, hp, hst, List.drop_one]⟩
    | some obj =>
      exact Or.inl ⟨obj, rfl, rfl, by
        simp only [Get, World.popFault, World.record, hp, hst, List.drop_one]⟩

/-- The two ways `Status().Update` can end. -/
theorem StatusUpdate_cases (obj : PackageRevision) (w : World) :
    (∃ cur, w.store = some cur ∧ w.faults.headD none = none ∧
      StatusUpdate obj w = (.ok { cur with Status := obj.Status },
        { store := some { cur with Status := obj.Status }, faults := w.faults.drop 1,
          clock := w.clock, calls := w.calls ++ [(.statusUpdate obj, none)],
          events := w.events })) ∨
    (∃ e, StatusUpdate obj w = (.error e,
        { store := w.store, faults := w.faults.drop 1, clock := w.clock,
          calls := w.calls ++ [(.statusUpdate obj, some e)], events := w.events })) := by
  cases hp : w.faults.headD none with
  | some err =>
    exact Or.inr ⟨err, by
      simp only [StatusUpdate, World.popFault, World.record, hp, List.drop_one]⟩
  | none =>
    cases hst : w.store with
    | none =>
      exact Or.inr ⟨notFoundError obj.key, by
        simp only [StatusUpdate, World.popFault, World.record, hp, hst, List.drop_one]⟩
    | some cur =>
      exact Or.inl ⟨cur, rfl, rfl, by
        simp only [StatusUpdate, World.popFault, World.record, hp, hst, List.drop_one]⟩

/-- The two ways `Update` can end. -/
theorem Update_cases (obj : PackageRevision) (w : World) :
    (∃ cur, w.store = some cur ∧ w.faults.headD none = none ∧
      Update obj w = (.ok { obj with Status := cur.Status },
        { store := some { obj with Status := cur.Status }, faults := w.faults.drop 1,
          clock := w.clock, calls := w.calls ++ [(.update obj, none)],
          events := w.events })) ∨
    (∃ e, Update obj w = (.error e,
        { store := w.store, faults := w.faults.drop 1, clock := w.clock,
          calls := w.calls ++ [(.update obj, some e)], events := w.events })) := by
  cases hp : w.faults.headD none with
  | some err =>
    exact Or.inr ⟨err, by
      simp only [Update, World.popFault, World.record, hp, List.drop_one]⟩
  | none =>
    cases hst : w.store with
    | none =>
      exact Or.inr ⟨notFoundError obj.key, by
        simp only [Update, World.popFault, World.record, hp, hst, List.drop_one]⟩
    | some cur =>
      exact Or.inl ⟨cur, rfl, rfl, by
        simp only [Update, World.popFault, World.record, hp, hst, List.drop_one]⟩

/-- The result of `Status().Update`, read off. -/
theorem StatusUpdate_inv (obj : PackageRevision) (w : World)
    (r : Except Error PackageRevision) (w' : World) (h : StatusUpdate obj w = (r, w')) :
    w'.events = w.events ∧ w'.clock = w.clock ∧
    ((∃ cur, w.store = some cur ∧ r = .ok { cur with Status := obj.Status } ∧
        w'.store = some { cur with Status := obj.Status } ∧
        w'.calls = w.calls ++ [(.statusUpdate obj, none)]) ∨
     (∃ e, r = .error e ∧ w'.store = w.store ∧
        w'.calls = w.calls ++ [(.statusUpdate obj, some e)])) := by
  rcases StatusUpdate_cases obj w with ⟨cur, hcur, -, hsu⟩ | ⟨e, hsu⟩
  · rw [hsu] at h
    simp only [Prod.mk.injEq] at h
    obtain ⟨rfl, rfl⟩ := h
    exact ⟨rfl, rfl, Or.inl ⟨cur, hcur, rfl, rfl, rfl⟩⟩
  · rw [hsu] at h
    simp only [Prod.mk.injEq] at h
    obtain ⟨rfl, rfl⟩ := h
    exact ⟨rfl, rfl, Or.inr ⟨e, rfl, rfl, rfl⟩⟩

/-- The result of `Update`, read off. -/
theorem Update_inv (obj : PackageRevision) (w : World)
    (r : Except Error PackageRevision) (w' : World) (h : Update obj w = (r, w')) :
    w'.events = w.events ∧ w'.clock = w.clock ∧
    ((∃ cur, w.store = some cur ∧ r = .ok { obj with Status := cur.Status } ∧
        w'.store = some { obj with Status := cur.Status } ∧
        w'.calls = w.calls ++ [(.update obj, none)]) ∨
     (∃ e, r = .error e ∧ w'.store = w.store ∧
        w'.calls = w.calls ++ [(.update obj, some e)])) := by
  rcases Update_cases obj w with ⟨cur, hcur, -, hsu⟩ | ⟨e, hsu⟩
  · rw [hsu] at h
    simp only [Prod.mk.injEq] at h
    obtain ⟨rfl, rfl⟩ := h
    exact ⟨rfl, rfl, Or.inl ⟨cur, hcur, rfl, rfl, rfl⟩⟩
  · rw [hsu] at h
    simp only [Prod.mk.injEq] at h
    obtain ⟨rfl, rfl⟩ := h
    exact ⟨rfl, rfl, Or.inr ⟨e, rfl, rfl, rfl⟩⟩

/-- The result of `Get`, read off. -/
theorem Get_inv (key : NamespacedName) (w : World)
    (r : Except Error PackageRevision) (w' : World) (h : Get key w = (r, w')) :
    w'.events = w.events ∧ w'.clock = w.clock ∧ w'.store = w.store ∧
    ((∃ obj, w.store = some obj ∧ r = .ok obj ∧ w'.calls = w.calls ++ [(.get key, none)]) ∨
     (∃ e, r = .error e ∧ w'.calls = w.calls ++ [(.get key, some e)])) := by
  rcases Get_cases key w with ⟨obj, hobj, -, hg⟩ | ⟨e, hg⟩
  · rw [hg] at h
    simp only [Prod.mk.injEq] at h
    obtain ⟨rfl, rfl⟩ := h
    exact ⟨rfl, rfl, rfl, Or.inl ⟨obj, hobj, rfl, rfl⟩⟩
  · rw [hg] at h
    simp only [Prod.mk.injEq] at h
    obtain ⟨rfl, rfl⟩ := h
    exact ⟨rfl, rfl, rfl, Or.inr ⟨e, rfl, rfl⟩⟩

@[simp] theorem withConditions_Finalizers (cr : PackageRevision) (cs : List Condition) :
    (cr.withConditions cs).Finalizers = cr.Finalizers := rfl

@[simp] theorem withConditions_DeletionTimestamp (cr : PackageRevision) (cs : List Condition) :
    (cr.withConditions cs).DeletionTimestamp = cr.DeletionTimestamp := rfl

@[simp] theorem withConditions_Conditions (cr : PackageRevision) (cs : List Condition) :
    (cr.withConditions cs).Status.Conditions = cs := rfl

theorem succeedFor_drop (a b : Nat) (faults : List (Option Error))
    (h : succeedFor (a + b) faults) : succeedFor b (faults.drop a) := by
  intro f hf
  apply h f
  rw [List.take_add]
  exact List.mem_append_right _ hf

theorem succeedFor_mono (a b : Nat) (faults : List (Option Error))
    (h : succeedFor b faults) (hab : a ≤ b) : succeedFor a faults := by
  intro f hf
  apply h f
  have : a = min a b := by omega
  rw [this, ← List.take_take] at hf
  exact List.mem_of_mem_take hf

theorem succeedFor_headD (k : Nat) (faults : List (Option Error))
    (h : succeedFor (k + 1) faults) : faults.headD none = none := by
  simpa using succeedFor_headD_drop (k + 1) 0 faults h (by omega)

/-- Lines 100-117 when their calls go through. -/
theorem initStatus_ok (req : Request) (cr : PackageRevision) (faults : List (Option Error))
    (clock : List Time) (calls : List (Call × Option Error)) (events : List Event)
    (hf : succeedFor (initCalls cr) faults) :
    ∃ t1 : Time, ∃ clock' : List Time, ∃ l : List (Call × Option Error),
      Reconcile.initStatus req cr ⟨some cr, faults, clock, calls, events⟩ =
        (.ok (cr.withConditions (initialisedConditions cr.Status.Conditions t1)),
          ⟨some (cr.withConditions (initialisedConditions cr.Status.Conditions t1)),
            faults.drop (initCalls cr), clock', calls ++ l, events⟩) ∧
      (∀ x ∈ l, ∀ o, x.1 ≠ .update o) := by
  by_cases hc : cr.Status.Conditions = []
  · have hic : initCalls cr = 2 := by simp [initCalls, hc]
    rw [hic] at hf ⊢
    refine ⟨clock.headD 0, clock.tail,
      [(.statusUpdate
          (cr.withConditions (setConditionAt [] startingCondition (clock.headD 0))), none),
       (.get req.NamespacedName, none)], ?_, ?_⟩
    · rw [initStatus_mk req cr faults clock calls events hc (succeedFor_headD 1 _ hf)
        (succeedFor_headD_drop 2 1 _ hf (by omega))]
      simp only [initialisedConditions, hc, List.length_nil, beq_self_eq_true, if_true]
    · intro x hx o
      simp at hx
      rcases hx with rfl | rfl <;> simp
  · have hic : initCalls cr = 0 := by simp [initCalls, hc]
    refine ⟨0, clock, [], ?_, by simp⟩
    rw [initStatus_skip req cr _ hc, hic]
    have h1 : cr.withConditions (initialisedConditions cr.Status.Conditions 0) = cr := by
      simp [initialisedConditions, hc, PackageRevision.withConditions]
    simp [h1]

/-- Lines 119-134 when their call goes through. -/
theorem addFinalizer_ok (cr : PackageRevision) (faults : List (Option Error))
    (clock : List Time) (calls : List (Call × Option Error)) (events : List Event)
    (hf : succeedFor (finalizerCalls cr) faults) :
    ∃ l : List (Call × Option Error),
      Reconcile.addFinalizer cr ⟨some cr, faults, clock, calls, events⟩ =
        (.ok { cr with Finalizers := ensuredFinalizers cr.Finalizers },
          ⟨some { cr with Finalizers := ensuredFinalizers cr.Finalizers },
            faults.drop (finalizerCalls cr), clock, calls ++ l, events⟩) ∧
      (PackageRevisionFinalizer ∈ cr.Finalizers → l = []) := by
  by_cases hfin : PackageRevisionFinalizer ∈ cr.Finalizers
  · have hcont : cr.Finalizers.contains PackageRevisionFinalizer = true := by simpa using hfin
    refine ⟨[], ?_, fun _ => rfl⟩
    rw [addFinalizer_skip cr _ hfin]
    simp [finalizerCalls, ensuredFinalizers, hcont, hfin]
  · have hcont : cr.Finalizers.contains PackageRevisionFinalizer = false := by simpa using hfin
    have hfc : finalizerCalls cr = 1 := by simp [finalizerCalls, hfin]
    rw [hfc] at hf ⊢
    refine ⟨[(.update { cr with Finalizers := cr.Finalizers ++ [PackageRevisionFinalizer] },
      none)], ?_, fun h => absurd h hfin⟩
    rw [addFinalizer_mk cr faults clock calls events hfin (succeedFor_headD 0 _ hf)]
    simp [ensuredFinalizers, hcont, hfin]

/-- Lines 80-134 when their calls go through: what is left to run. -/
theorem prepare_ok (req : Request) (cr : PackageRevision) (faults : List (Option Error))
    (clock : List Time) (calls : List (Call × Option Error)) (events : List Event)
    (hf : succeedFor (1 + initCalls cr + finalizerCalls cr) faults) :
    ∃ t1 : Time, ∃ clock' : List Time, ∃ l : List (Call × Option Error),
      Reconcile req ⟨some cr, faults, clock, calls, events⟩ =
        (if (preparedObject cr t1).DeletionTimestamp.isSome then
          match Reconcile.finalize req (preparedObject cr t1)
            ⟨some (preparedObject cr t1), faults.drop (1 + initCalls cr + finalizerCalls cr),
              clock', calls ++ l, events⟩ with
          | (.error err, w) => ((Result.empty, some err), w)
          | (.ok _, w) => ((Result.empty, none), w)
        else
          match Reconcile.available (preparedObject cr t1)
            ⟨some (preparedObject cr t1), faults.drop (1 + initCalls cr + finalizerCalls cr),
              clock', calls ++ l, events⟩ with
          | (.error err, w) => ((Result.empty, some err), w)
          | (.ok _, w) => ((Result.empty, none), w)) ∧
      (PackageRevisionFinalizer ∈ cr.Finalizers → ∀ x ∈ l, ∀ o, x.1 ≠ .update o) := by
  have hf1 : succeedFor (initCalls cr) (faults.drop 1) := by
    apply succeedFor_mono _ _ _ (succeedFor_drop 1 (initCalls cr + finalizerCalls cr) faults
      (by rw [← Nat.add_assoc]; exact hf)) (by omega)
  obtain ⟨t1, clock1, l1, h1, hl1⟩ :=
    initStatus_ok req cr (faults.drop 1) clock (calls ++ [(.get req.NamespacedName, none)])
      events hf1
  have hf2 : succeedFor (finalizerCalls (cr.withConditions
      (initialisedConditions cr.Status.Conditions t1))) (faults.drop (1 + initCalls cr)) :=
    succeedFor_drop _ _ _ hf
  obtain ⟨l2, h2, hl2⟩ :=
    addFinalizer_ok (cr.withConditions (initialisedConditions cr.Status.Conditions t1))
      ((faults.drop 1).drop (initCalls cr)) clock1
      (calls ++ [(.get req.NamespacedName, none)] ++ l1) events
      (by simpa [List.drop_drop, Nat.add_comm] using hf2)
  refine ⟨t1, clock1, [(.get req.NamespacedName, none)] ++ l1 ++ l2, ?_, ?_⟩
  · rw [Reconcile, Get_mk _ _ _ _ _ _ (succeedFor_headD _ _ (by
      rw [Nat.add_assoc, Nat.add_comm] at hf; exact hf))]
    simp only []
    rw [h1]
    simp only []
    rw [h2]
    have hfc : finalizerCalls (cr.withConditions
        (initialisedConditions cr.Status.Conditions t1)) = finalizerCalls cr := rfl
    simp only [hfc, List.drop_drop, List.append_assoc]
    have hobj : ({ cr.withConditions (initialisedConditions cr.Status.Conditions t1) with
        Finalizers := ensuredFinalizers
          (cr.withConditions (initialisedConditions cr.Status.Conditions t1)).Finalizers } :
        PackageRevision) = preparedObject cr t1 := rfl
    rw [hobj]
    rfl
  · intro hfin x hx o
    have hl2' := hl2 (by simpa using hfin)
    subst hl2'
    simp at hx
    rcases hx with rfl | hx
    · simp
    · exact hl1 x hx o

theorem mem_ensuredFinalizers (fs : List String) :
    PackageRevisionFinalizer ∈ ensuredFinalizers fs := by
  unfold ensuredFinalizers
  by_cases h : PackageRevisionFinalizer ∈ fs <;> simp [h]

theorem filter_ensuredFinalizers (fs : List String) :
    (ensuredFinalizers fs).filter (fun x => x != PackageRevisionFinalizer) =
      fs.filter (fun x => x != PackageRevisionFinalizer) := by
  unfold ensuredFinalizers
  by_cases h : PackageRevisionFinalizer ∈ fs <;> simp [h]

theorem ensuredFinalizers_of_mem (fs : List String) (h : PackageRevisionFinalizer ∈ fs) :
    ensuredFinalizers fs = fs := by
  simp [ensuredFinalizers, h]

/-- A run on an object that is not marked for deletion, every call going
through: the outcome, the stored object and the calls issued. -/
theorem run_live (req : Request) (w : World) (cr : PackageRevision)
    (hs : w.store = some cr) (hd : cr.DeletionTimestamp = none) (hf : allSucceed w.faults) :
    ∃ t1 t2 : Time, ∃ l : List (Call × Option Error),
      (Reconcile req w).1 = (Result.empty, none) ∧
      (Reconcile req w).2.store = some (liveOutcome cr t1 t2) ∧
      allSucceed (Reconcile req w).2.faults ∧
      (Reconcile req w).2.events = w.events ∧
      (Reconcile req w).2.calls =
        w.calls ++ (l ++ [(.statusUpdate (liveOutcome cr t1 t2), none)]) ∧
      (PackageRevisionFinalizer ∈ cr.Finalizers → ∀ x ∈ l, ∀ o, x.1 ≠ .update o) := by
  obtain ⟨store, faults, clock, calls, events⟩ := w
  simp only at hs hf
  subst hs
  obtain ⟨t1, clock1, l, hrun, hl⟩ := prepare_ok req cr faults clock calls events
    (allSucceed_succeedFor _ _ hf)
  have hd' : (preparedObject cr t1).DeletionTimestamp.isSome = false := by
    show cr.DeletionTimestamp.isSome = false
    rw [hd]; rfl
  rw [hrun, hd']
  simp only [Bool.false_eq_true, if_false]
  rw [available_mk _ _ _ _ _ (allSucceed_headD_drop faults hf _)]
  refine ⟨t1, clock1.headD 0, l, rfl, rfl, ?_, rfl, ?_, hl⟩
  · exact allSucceed_drop _ _ (allSucceed_drop _ _ hf)
  · simp only [List.append_assoc]
    rfl

/-- A run on an object that is marked for deletion, every call going through:
the outcome, the stored object and the event recorded. -/
theorem run_deleted (req : Request) (w : World) (cr : PackageRevision)
    (hs : w.store = some cr) (hd : cr.DeletionTimestamp.isSome = true)
    (hf : allSucceed w.faults) :
    ∃ t1 t2 t3 : Time,
      (Reconcile req w).1 = (Result.empty, none) ∧
      (Reconcile req w).2.store = some (deletedOutcome cr t1 t2 t3) ∧
      allSucceed (Reconcile req w).2.faults ∧
      (Reconcile req w).2.events = w.events ++ [deletingEvent cr] := by
  obtain ⟨store, faults, clock, calls, events⟩ := w
  simp only at hs hf
  subst hs
  obtain ⟨t1, clock1, l, hrun, -⟩ := prepare_ok req cr faults clock calls events
    (allSucceed_succeedFor _ _ hf)
  have hd' : (preparedObject cr t1).DeletionTimestamp.isSome = true := hd
  have hf' := allSucceed_drop (1 + initCalls cr + finalizerCalls cr) faults hf
  obtain ⟨t2, t3, clock2, l2, hfz⟩ :=
    finalize_mk req (preparedObject cr t1) _ clock1 (calls ++ l) events
      (mem_ensuredFinalizers cr.Finalizers)
      (by simpa using allSucceed_headD_drop _ hf' 0) (allSucceed_headD_drop _ hf' 1)
      (allSucceed_headD_drop _ hf' 2) (allSucceed_headD_drop _ hf' 3)
  rw [hrun, hd']
  simp only [if_true]
  rw [hfz]
  refine ⟨t1, t2, t3, rfl, ?_, ?_, rfl⟩
  · simp only [deletedOutcome, preparedObject, filter_ensuredFinalizers]
    rfl
  · exact allSucceed_drop _ _ hf'

/-! ## Lemmas on `meta.SetStatusCondition` -/

theorem setConditionAt_none (cs : List Condition) (c : Condition) (t : Time)
    (h : FindStatusCondition cs c.Type_ = none) :
    setConditionAt cs c t =
      cs ++ [if c.LastTransitionTime.IsZero then { c with LastTransitionTime := t } else c] := by
  unfold setConditionAt SetStatusCondition
  rw [h]
  by_cases hz : c.LastTransitionTime.IsZero = true <;> simp [hz, World.now]

theorem setConditionAt_some (cs : List Condition) (c e : Condition) (t : Time)
    (h : FindStatusCondition cs c.Type_ = some e) :
    setConditionAt cs c t = storeCondition cs c.Type_ (mergedCondition e c t) := by
  unfold setConditionAt SetStatusCondition
  rw [h]
  obtain ⟨eT, eS, eO, eL, eR, eM⟩ := e
  obtain ⟨cT, cS, cO, cL, cR, cM⟩ := c
  by_cases hst : eS = cS <;> by_cases hz : Time.IsZero cL = true <;>
    by_cases hr : eR = cR <;> by_cases hm : eM = cM <;> by_cases ho : eO = cO <;>
    simp [hst, hz, hr, hm, ho, World.now, mergedCondition]

theorem find_type (cs : List Condition) (T : String) (e : Condition)
    (h : FindStatusCondition cs T = some e) : e.Type_ = T := by
  unfold FindStatusCondition at h
  have := List.find?_some h
  simpa using this

theorem filter_of_find_none (cs : List Condition) (T : String)
    (h : FindStatusCondition cs T = none) :
    cs.filter (fun c => c.Type_ == T) = [] := by
  unfold FindStatusCondition at h
  rw [List.find?_eq_none] at h
  rw [List.filter_eq_nil_iff]
  intro a ha
  exact h a ha

theorem filter_storeCondition (cs : List Condition) (T : String) (m e : Condition)
    (hm : m.Type_ = T) (h : FindStatusCondition cs T = some e) :
    (storeCondition cs T m).filter (fun c => c.Type_ == T) =
      m :: (cs.filter (fun c => c.Type_ == T)).tail := by
  induction cs with
  | nil => simp [FindStatusCondition] at h
  | cons a l ih =>
    by_cases ha : a.Type_ = T
    · simp [storeCondition, ha, hm]
    · have hfind : FindStatusCondition l T = some e := by
        simpa [FindStatusCondition, ha] using h
      simp [storeCondition, ha, ih hfind]

/-- After `meta.SetStatusCondition`, the conditions of the type of `c`: one
that carries the status, reason and message of `c`, then the further ones the
list already held. -/
theorem filter_setConditionAt (cs : List Condition) (c : Condition) (t : Time) :
    ∃ m : Condition, m.Type_ = c.Type_ ∧ m.Status = c.Status ∧ m.Reason = c.Reason ∧
      m.Message = c.Message ∧
      (setConditionAt cs c t).filter (fun x => x.Type_ == c.Type_) =
        m :: (cs.filter (fun x => x.Type_ == c.Type_)).tail := by
  cases h : FindStatusCondition cs c.Type_ with
  | none =>
    rw [setConditionAt_none cs c t h, List.filter_append, filter_of_find_none cs _ h]
    by_cases hz : c.LastTransitionTime.IsZero = true
    · exact ⟨{ c with LastTransitionTime := t }, rfl, rfl, rfl, rfl, by simp [hz]⟩
    · exact ⟨c, rfl, rfl, rfl, rfl, by simp [hz]⟩
  | some e =>
    rw [setConditionAt_some cs c e t h]
    have he := find_type cs _ e h
    exact ⟨mergedCondition e c t, he, rfl, rfl, rfl,
      filter_storeCondition cs _ _ e he h⟩

/-! ## The reconciler's contract -/

theorem tail_eq_nil_of_length_le_one {α : Type} (l : List α) (h : l.length ≤ 1) :
    l.tail = [] := by
  cases l with
  | nil => rfl
  | cons a l =>
    cases l with
    | nil => rfl
    | cons b l => simp at h

theorem count_ensuredFinalizers (fs : List String)
    (h : fs.count PackageRevisionFinalizer ≤ 1) :
    (ensuredFinalizers fs).count PackageRevisionFinalizer = 1 := by
  unfold ensuredFinalizers
  by_cases hin : PackageRevisionFinalizer ∈ fs
  · have hpos : 0 < fs.count PackageRevisionFinalizer := List.count_pos_iff.mpr hin
    have hcont : fs.contains PackageRevisionFinalizer = true := by simpa using hin
    simp only [hcont, if_true]
    omega
  · simp [hin, List.count_eq_zero_of_not_mem hin]

/-- C1. The finalizer is added once.  For a stored object that is not marked for
deletion and holds the finalizer at most once, a run in which every client call
goes through leaves a stored object whose finalizer list holds
`PackageRevisionFinalizer` exactly once; and when the finalizer was already
there, the run issues no `Update` and the finalizer list is unchanged. -/
theorem finalizer_added_once (req : Request) (w : World) (cr : PackageRevision)
    (hs : w.store = some cr) (hd : cr.DeletionTimestamp = none)
    (hf : allSucceed w.faults)
    (hcount : cr.Finalizers.count PackageRevisionFinalizer ≤ 1) :
    ∃ cr' : PackageRevision, ∃ l : List (Call × Option Error),
      (Reconcile req w).2.store = some cr' ∧
      (Reconcile req w).2.calls = w.calls ++ l ∧
      cr'.Finalizers.count PackageRevisionFinalizer = 1 ∧
      (PackageRevisionFinalizer ∈ cr.Finalizers →
        cr'.Finalizers = cr.Finalizers ∧ ∀ x ∈ l, ∀ o, x.1 ≠ Call.update o) := by
  obtain ⟨t1, t2, l, -, hstore, -, -, hcalls, hl⟩ := run_live req w cr hs hd hf
  refine ⟨liveOutcome cr t1 t2, l ++ [(.statusUpdate (liveOutcome cr t1 t2), none)],
    hstore, hcalls, count_ensuredFinalizers _ hcount, fun hin => ⟨?_, ?_⟩⟩
  · exact ensuredFinalizers_of_mem _ hin
  · intro x hx o
    rcases List.mem_append.mp hx with hx | hx
    · exact hl hin x hx o
    · simp at hx
      subst hx
      simp

/-- C2. The finalizer is removed on deletion.  For a stored object whose
deletion timestamp is set, a run in which every client call goes through
returns an empty `Result` and a nil error and leaves a stored object whose
finalizer list no longer holds `PackageRevisionFinalizer` and keeps every other
finalizer, in order. -/
theorem finalizer_removed_on_deletion (req : Request) (w : World) (cr : PackageRevision)
    (hs : w.store = some cr) (hd : cr.DeletionTimestamp ≠ none)
    (hf : allSucceed w.faults) :
    (Reconcile req w).1 = (Result.empty, none) ∧
    ∃ cr' : PackageRevision,
      (Reconcile req w).2.store = some cr' ∧
      PackageRevisionFinalizer ∉ cr'.Finalizers ∧
      cr'.Finalizers = cr.Finalizers.filter (fun x => x != PackageRevisionFinalizer) ∧
      (∀ f ∈ cr.Finalizers, f ≠ PackageRevisionFinalizer → f ∈ cr'.Finalizers) := by
  have hd' : cr.DeletionTimestamp.isSome = true := by
    cases h : cr.DeletionTimestamp with
    | none => exact absurd h hd
    | some t => rfl
  obtain ⟨t1, t2, t3, hres, hstore, -, -⟩ := run_deleted req w cr hs hd' hf
  refine ⟨hres, deletedOutcome cr t1 t2 t3, hstore, ?_, rfl, ?_⟩
  · simp [deletedOutcome]
  · intro f hf hne
    simp [deletedOutcome, hf, hne]

/-- C3. When the initial `Get` fails with a NotFound error, `Reconcile` stops:
it returns an empty `Result` and a nil error, the only client call it has
issued is that `Get`, no event is recorded and the store is untouched. -/
theorem not_found_stops (req : Request) (w : World) (e : Error)
    (hget : (Get req.NamespacedName w).1 = .error e) (hnf : IsNotFound e = true) :
    (Reconcile req w).1 = (Result.empty, none) ∧
    (Reconcile req w).2.calls = w.calls ++ [(Call.get req.NamespacedName, some e)] ∧
    (Reconcile req w).2.events = w.events ∧
    (Reconcile req w).2.store = w.store := by
  rcases Get_cases req.NamespacedName w with ⟨obj, -, -, h⟩ | ⟨e', h⟩
  · rw [h] at hget
    simp at hget
  · rw [h] at hget
    have he : e' = e := by simpa using hget
    subst he
    rw [Reconcile, h]
    simp [hnf]

theorem filter_initialisedConditions (cs : List Condition) (t : Time) (T : String)
    (h : (cs.filter (fun c => c.Type_ == T)).length ≤ 1) :
    ((initialisedConditions cs t).filter (fun c => c.Type_ == T)).length ≤ 1 := by
  unfold initialisedConditions
  cases cs with
  | nil =>
    have : setConditionAt [] startingCondition t =
        [{ startingCondition with LastTransitionTime := t }] := rfl
    simp only [List.length_nil, beq_self_eq_true, if_true, this]
    exact le_trans (List.length_filter_le _ _) (by simp)
  | cons a l => simpa using h

/-- C8, amended.  For a stored object that is not marked for deletion and holds
at most one condition of type `Available`, a run in which every client call
goes through returns an empty `Result` and a nil error, ends with a status
`Update` of the object it leaves in the store, and the stored conditions hold
exactly one condition of type `Available`, with status `True`, reason
`Reconciling` and the message built from the name and the lifecycle. -/
theorem available_reported (req : Request) (w : World) (cr : PackageRevision)
    (hs : w.store = some cr) (hd : cr.DeletionTimestamp = none)
    (hf : allSucceed w.faults)
    (huniq : (cr.Status.Conditions.filter
      (fun c => c.Type_ == typeAvailablePackageRevision)).length ≤ 1) :
    (Reconcile req w).1 = (Result.empty, none) ∧
    ∃ cr' : PackageRevision, ∃ c : Condition, ∃ l : List (Call × Option Error),
      (Reconcile req w).2.store = some cr' ∧
      (Reconcile req w).2.calls = w.calls ++ (l ++ [(Call.statusUpdate cr', none)]) ∧
      cr'.Status.Conditions.filter (fun c => c.Type_ == typeAvailablePackageRevision) = [c] ∧
      c.Status = ConditionTrue ∧ c.Reason = "Reconciling" ∧
      c.Message = "Deployment for custom resource (" ++ cr.Name ++ ") with " ++
        cr.Spec.Lifecycle ++ " lifecycle successful" := by
  obtain ⟨t1, t2, l, hres, hstore, -, -, hcalls, -⟩ := run_live req w cr hs hd hf
  obtain ⟨m, -, hst, hre, hme, hfilter⟩ :=
    filter_setConditionAt (initialisedConditions cr.Status.Conditions t1)
      (availableCondition cr) t2
  have htail := tail_eq_nil_of_length_le_one _
    (filter_initialisedConditions cr.Status.Conditions t1 typeAvailablePackageRevision huniq)
  refine ⟨hres, liveOutcome cr t1 t2, m, l, hstore, hcalls, ?_, hst, hre, hme⟩
  have : (availableCondition cr).Type_ = typeAvailablePackageRevision := rfl
  rw [this] at hfilter
  rw [← htail, ← hfilter]
  rfl

/-- C9.  The code at the input the claim names.  The field comments say the
strategy "defaults to 'resource-merge'", but the declarations carry no default:
the zero value of `PackageCloneTaskSpec` and of `PackageUpgradeTaskSpec`, which
is the value every field of which is the zero value of its type, has the empty
strategy, which is not `ResourceMerge` and none of the four declared
strategies. -/
theorem zero_strategy_not_resource_merge :
    PackageCloneTaskSpec.zero = default ∧ PackageUpgradeTaskSpec.zero = default ∧
    PackageCloneTaskSpec.zero.Strategy = "" ∧ PackageUpgradeTaskSpec.zero.Strategy = "" ∧
    PackageCloneTaskSpec.zero.Strategy ≠ ResourceMerge ∧
    PackageUpgradeTaskSpec.zero.Strategy ≠ ResourceMerge ∧
    PackageCloneTaskSpec.zero.Strategy ∉ declaredMergeStrategies ∧
    PackageUpgradeTaskSpec.zero.Strategy ∉ declaredMergeStrategies :=
  ⟨rfl, rfl, rfl, rfl, by decide, by decide, by decide, by decide⟩

/-! ## The segments of `Reconcile` under arbitrary client outcomes -/

/-- Lines 100-117, whatever the client answers: the calls issued and the result. -/
theorem initStatus_spec (req : Request) (cr : PackageRevision) (w : World)
    (hs : w.store = some cr) (r : Except Error PackageRevision) (w' : World)
    (h : Reconcile.initStatus req cr w = (r, w')) :
    ∃ l : List (Call × Option Error), w'.calls = w.calls ++ l ∧ w'.events = w.events ∧
      ((cr.Status.Conditions ≠ [] ∧ r = .ok cr ∧ w'.store = some cr ∧ l = []) ∨
       (cr.Status.Conditions = [] ∧ ∃ t : Time,
          ((∃ e, r = .error e ∧
              l = [(.statusUpdate (cr.withConditions (setConditionAt [] startingCondition t)),
                some e)]) ∨
           (∃ e, r = .error e ∧
              l = [(.statusUpdate (cr.withConditions (setConditionAt [] startingCondition t)),
                none), (.get req.NamespacedName, some e)]) ∨
           (r = .ok (cr.withConditions (setConditionAt [] startingCondition t)) ∧
              w'.store = some (cr.withConditions (setConditionAt [] startingCondition t)) ∧
              l = [(.statusUpdate (cr.withConditions (setConditionAt [] startingCondition t)),
                none), (.get req.NamespacedName, none)])))) := by
  by_cases hc : cr.Status.Conditions = []
  · have hr : readsClock [] startingCondition = true := rfl
    simp only [Reconcile.initStatus, hc, List.length_nil, beq_self_eq_true, if_true,
      SetStatusCondition_eq, hr] at h
    rcases StatusUpdate_cases
      (cr.withConditions (setConditionAt [] startingCondition (w.clock.headD 0)))
      { store := w.store, faults := w.faults, clock := w.clock.tail, calls := w.calls,
        events := w.events } with ⟨cur, hcur, -, hsu⟩ | ⟨e, hsu⟩
    · rw [hsu] at h
      simp only [] at h hcur
      rw [hs] at hcur
      have hcur' : cur = cr := (Option.some.inj hcur).symm
      subst hcur'
      rcases Get_cases req.NamespacedName
        { store := some { cur with Status := (cur.withConditions
            (setConditionAt [] startingCondition (w.clock.headD 0))).Status },
          faults := w.faults.drop 1, clock := w.clock.tail,
          calls := w.calls ++ [(.statusUpdate (cur.withConditions
            (setConditionAt [] startingCondition (w.clock.headD 0))), none)],
          events := w.events } with ⟨obj, hobj, -, hg⟩ | ⟨e, hg⟩
      · rw [hg] at h
        simp only [Prod.mk.injEq] at h
        obtain ⟨rfl, rfl⟩ := h
        simp only [Option.some.injEq] at hobj
        subst hobj
        refine ⟨_, by simp only [List.append_assoc]; rfl, rfl, Or.inr ⟨hc, w.clock.headD 0,
          Or.inr (Or.inr ⟨?_, ?_, rfl⟩)⟩⟩
        · rfl
        · rfl
      · rw [hg] at h
        simp only [Prod.mk.injEq] at h
        obtain ⟨rfl, rfl⟩ := h
        exact ⟨_, by simp only [List.append_assoc]; rfl, rfl, Or.inr ⟨hc, w.clock.headD 0,
          Or.inr (Or.inl ⟨e, rfl, rfl⟩)⟩⟩
    · rw [hsu] at h
      simp only [Prod.mk.injEq] at h
      obtain ⟨rfl, rfl⟩ := h
      exact ⟨_, rfl, rfl, Or.inr ⟨hc, w.clock.headD 0, Or.inl ⟨e, rfl, rfl⟩⟩⟩
  · rw [initStatus_skip req cr w hc] at h
    simp only [Prod.mk.injEq] at h
    obtain ⟨rfl, rfl⟩ := h
    exact ⟨[], by simp, rfl, Or.inl ⟨hc, rfl, hs, rfl⟩⟩

/-- Lines 119-134, whatever the client answers. -/
theorem addFinalizer_spec (cr : PackageRevision) (w : World)
    (hs : w.store = some cr) (r : Except Error PackageRevision) (w' : World)
    (h : Reconcile.addFinalizer cr w = (r, w')) :
    ∃ l : List (Call × Option Error), w'.calls = w.calls ++ l ∧ w'.events = w.events ∧
      ((PackageRevisionFinalizer ∈ cr.Finalizers ∧ r = .ok cr ∧ w'.store = some cr ∧ l = []) ∨
       (PackageRevisionFinalizer ∉ cr.Finalizers ∧
          ((∃ e, r = .error e ∧
              l = [(.update { cr with Finalizers := cr.Finalizers ++ [PackageRevisionFinalizer] },
                some e)]) ∨
           (r = .ok { cr with Finalizers := cr.Finalizers ++ [PackageRevisionFinalizer] } ∧
              w'.store =
                some { cr with Finalizers := cr.Finalizers ++ [PackageRevisionFinalizer] } ∧
              l = [(.update { cr with Finalizers := cr.Finalizers ++ [PackageRevisionFinalizer] },
                none)])))) := by
  by_cases hfin : PackageRevisionFinalizer ∈ cr.Finalizers
  · rw [addFinalizer_skip cr w hfin] at h
    simp only [Prod.mk.injEq] at h
    obtain ⟨rfl, rfl⟩ := h
    exact ⟨[], by simp, rfl, Or.inl ⟨hfin, rfl, hs, rfl⟩⟩
  · have hcont : cr.Finalizers.contains PackageRevisionFinalizer = false := by simpa using hfin
    simp only [Reconcile.addFinalizer, ContainsFinalizer, AddFinalizer, hcont, Bool.not_false,
      if_true, Bool.false_eq_true, if_false, Bool.not_true] at h
    rcases Update_cases { cr with Finalizers := cr.Finalizers ++ [PackageRevisionFinalizer] } w
      with ⟨cur, hcur, -, hu⟩ | ⟨e, hu⟩
    · rw [hu] at h
      rw [hs] at hcur
      have hcur' : cur = cr := (Option.some.inj hcur).symm
      subst hcur'
      simp only [Prod.mk.injEq] at h
      obtain ⟨rfl, rfl⟩ := h
      exact ⟨_, rfl, rfl, Or.inr ⟨hfin, Or.inr ⟨rfl, rfl, rfl⟩⟩⟩
    · rw [hu] at h
      simp only [Prod.mk.injEq] at h
      obtain ⟨rfl, rfl⟩ := h
      exact ⟨_, rfl, rfl, Or.inr ⟨hfin, Or.inl ⟨e, rfl, rfl⟩⟩⟩

/-- Lines 194-211, whatever the client answers. -/
theorem available_spec (cr : PackageRevision) (w : World)
    (hs : w.store = some cr) (r : Except Error PackageRevision) (w' : World)
    (h : Reconcile.available cr w = (r, w')) :
    ∃ t : Time, w'.events = w.events ∧
      ((∃ e, r = .error e ∧
          w'.calls = w.calls ++ [(.statusUpdate (cr.withConditions
            (setConditionAt cr.Status.Conditions (availableCondition cr) t)), some e)]) ∨
       (r = .ok (cr.withConditions
            (setConditionAt cr.Status.Conditions (availableCondition cr) t)) ∧
          w'.store = some (cr.withConditions
            (setConditionAt cr.Status.Conditions (availableCondition cr) t)) ∧
          w'.calls = w.calls ++ [(.statusUpdate (cr.withConditions
            (setConditionAt cr.Status.Conditions (availableCondition cr) t)), none)])) := by
  simp only [Reconcile.available, SetStatusCondition_eq] at h
  rcases StatusUpdate_cases
    (cr.withConditions (setConditionAt cr.Status.Conditions (availableCondition cr)
      (w.clock.headD 0)))
    { store := w.store, faults := w.faults,
      clock := if readsClock cr.Status.Conditions (availableCondition cr) then w.clock.tail
        else w.clock,
      calls := w.calls, events := w.events } with ⟨cur, hcur, -, hsu⟩ | ⟨e, hsu⟩
  · rw [hsu] at h
    simp only [] at hcur
    rw [hs] at hcur
    have hcur' : cur = cr := (Option.some.inj hcur).symm
    subst hcur'
    simp only [Prod.mk.injEq] at h
    obtain ⟨rfl, rfl⟩ := h
    exact ⟨w.clock.headD 0, rfl, Or.inr ⟨rfl, rfl, rfl⟩⟩
  · rw [hsu] at h
    simp only [Prod.mk.injEq] at h
    obtain ⟨rfl, rfl⟩ := h
    exact ⟨w.clock.headD 0, rfl, Or.inl ⟨e, rfl, rfl⟩⟩

/-- Lines 140-190 for an object that holds the finalizer, whatever the client
answers: the calls issued, the event and the result. -/
theorem finalize_spec (req : Request) (cr : PackageRevision) (w : World)
    (hfin : PackageRevisionFinalizer ∈ cr.Finalizers)
    (hs : w.store = some cr) (r : Except Error PackageRevision) (w' : World)
    (h : Reconcile.finalize req cr w = (r, w')) :
    ∃ t2 t3 : Time, ∃ l : List (Call × Option Error), w'.calls = w.calls ++ l ∧
      ((∃ e, r = .error e ∧ w'.events = w.events ∧
          l = [(.statusUpdate (finalizingObject cr t2), some e)]) ∨
       (∃ e, r = .error e ∧ w'.events = w.events ++ [deletingEvent cr] ∧
          l = [(.statusUpdate (finalizingObject cr t2), none),
               (.get req.NamespacedName, some e)]) ∨
       (∃ e, r = .error e ∧ w'.events = w.events ++ [deletingEvent cr] ∧
          l = [(.statusUpdate (finalizingObject cr t2), none),
               (.get req.NamespacedName, none),
               (.statusUpdate (finalizedObject cr t2 t3), some e)]) ∨
       (∃ e, r = .error e ∧ w'.events = w.events ++ [deletingEvent cr] ∧
          l = [(.statusUpdate (finalizingObject cr t2), none),
               (.get req.NamespacedName, none),
               (.statusUpdate (finalizedObject cr t2 t3), none),
               (.update (releasedObject cr t2 t3), some e)]) ∨
       (r = .ok (releasedObject cr t2 t3) ∧ w'.store = some (releasedObject cr t2 t3) ∧
          w'.events = w.events ++ [deletingEvent cr] ∧
          l = [(.statusUpdate (finalizingObject cr t2), none),
               (.get req.NamespacedName, none),
               (.statusUpdate (finalizedObject cr t2 t3), none),
               (.update (releasedObject cr t2 t3), none)])) := by
  have hcont : cr.Finalizers.contains PackageRevisionFinalizer = true := by simpa using hfin
  have hlen := length_filter_ne cr.Finalizers PackageRevisionFinalizer hfin
  obtain ⟨store, faults, clock, calls, events⟩ := w
  simp only at hs
  subst hs
  simp only [Reconcile.finalize, ContainsFinalizer, hcont, if_true, SetStatusCondition_eq] at h
  refine ⟨clock.headD 0,
    (if readsClock cr.Status.Conditions (finalizingCondition cr) then clock.tail
      else clock).headD 0, ?_⟩
  rcases StatusUpdate_cases (finalizingObject cr (clock.headD 0))
    ⟨some cr, faults, if readsClock cr.Status.Conditions (finalizingCondition cr) then clock.tail
      else clock, calls, events⟩ with ⟨cur, hcur, -, hsu⟩ | ⟨e, hsu⟩
  · simp only [Option.some.injEq] at hcur
    subst hcur
    simp only [finalizingObject] at hsu
    rw [hsu] at h
    simp only [doFinalizerOperationsForPackageRevision, RecorderEvent] at h
    rcases Get_cases req.NamespacedName
      ⟨some { cr with Status := (cr.withConditions (setConditionAt cr.Status.Conditions
          (finalizingCondition cr) (clock.headD 0))).Status },
        faults.drop 1,
        if readsClock cr.Status.Conditions (finalizingCondition cr) then clock.tail else clock,
        calls ++ [(.statusUpdate (cr.withConditions (setConditionAt cr.Status.Conditions
          (finalizingCondition cr) (clock.headD 0))), none)],
        events ++ [deletingEvent cr]⟩ with ⟨obj, hobj, -, hg⟩ | ⟨e, hg⟩
    · simp only [Option.some.injEq] at hobj
      subst hobj
      simp only [deletingEvent] at hg
      rw [hg] at h
      simp only [SetStatusCondition_eq] at h
      split at h
      · next err w1 heq =>
        simp only [Prod.mk.injEq] at h
        obtain ⟨rfl, rfl⟩ := h
        obtain ⟨hev, -, hsu2⟩ := StatusUpdate_inv _ _ _ _ heq
        rcases hsu2 with ⟨cur, -, hr, -, -⟩ | ⟨e, hr, -, hcalls⟩
        · cases hr
        · cases hr
          refine ⟨_, ?_, Or.inr (Or.inr (Or.inl ⟨err, rfl, hev, rfl⟩))⟩
          rw [hcalls]
          simp only [List.append_assoc]
          rfl
      · next cr5 w1 heq =>
        obtain ⟨hev, -, hsu2⟩ := StatusUpdate_inv _ _ _ _ heq
        rcases hsu2 with ⟨cur, hcur, hr, hst, hcalls⟩ | ⟨e, hr, -, -⟩
        · simp only [Option.some.injEq] at hcur
          subst hcur
          cases hr
          simp only [RemoveFinalizer, hlen, Bool.not_true, Bool.false_eq_true, if_false] at h
          obtain ⟨hev2, -, hup⟩ := Update_inv _ _ _ _ h
          rcases hup with ⟨cur, hcur, hr, hst2, hcalls2⟩ | ⟨e, hr, -, hcalls2⟩
          · rw [hst] at hcur
            simp only [Option.some.injEq] at hcur
            subst hcur
            refine ⟨_, ?_, Or.inr (Or.inr (Or.inr (Or.inr ⟨?_, ?_, ?_, rfl⟩)))⟩
            · rw [hcalls2, hcalls]
              simp only [List.append_assoc]
              rfl
            · rw [hr]; rfl
            · rw [hst2]; rfl
            · rw [hev2, hev]; rfl
          · refine ⟨_, ?_, Or.inr (Or.inr (Or.inr (Or.inl ⟨e, hr, ?_, rfl⟩)))⟩
            · rw [hcalls2, hcalls]
              simp only [List.append_assoc]
              rfl
            · rw [hev2, hev]; rfl
        · cases hr
    · simp only [deletingEvent] at hg
      rw [hg] at h
      simp only [Prod.mk.injEq] at h
      obtain ⟨rfl, rfl⟩ := h
      exact ⟨_, by simp only [List.append_assoc]; rfl,
        Or.inr (Or.inl ⟨e, rfl, rfl, rfl⟩)⟩
  · simp only [finalizingObject] at hsu
    rw [hsu] at h
    simp only [Prod.mk.injEq] at h
    obtain ⟨rfl, rfl⟩ := h
    exact ⟨_, rfl, Or.inl ⟨e, rfl, rfl, rfl⟩⟩

theorem initStatus_run (req : Request) (cr : PackageRevision) (w : World)
    (hs : w.store = some cr) (r : Except Error PackageRevision) (w' : World)
    (h : Reconcile.initStatus req cr w = (r, w')) :
    ∃ l, w'.calls = w.calls ++ l ∧ w'.events = w.events ∧ InitRun req cr l r ∧
      ∀ cr1, r = .ok cr1 → w'.store = some cr1 := by
  obtain ⟨l, hc, he, hcases⟩ := initStatus_spec req cr w hs r w' h
  refine ⟨l, hc, he, ?_, ?_⟩
  · rcases hcases with ⟨h1, h2, -, h3⟩ | ⟨h1, t, h2 | h2 | ⟨h2, -, h3⟩⟩
    · exact Or.inl ⟨h1, h2, h3⟩
    · exact Or.inr ⟨h1, t, Or.inl h2⟩
    · exact Or.inr ⟨h1, t, Or.inr (Or.inl h2)⟩
    · exact Or.inr ⟨h1, t, Or.inr (Or.inr ⟨h2, h3⟩)⟩
  · intro cr1 hr
    rcases hcases with ⟨-, h2, h3, -⟩ | ⟨-, t, ⟨e, h2, -⟩ | ⟨e, h2, -⟩ | ⟨h2, h3, -⟩⟩
    · rw [hr] at h2; cases h2; exact h3
    · rw [hr] at h2; cases h2
    · rw [hr] at h2; cases h2
    · rw [hr] at h2; cases h2; exact h3

theorem addFinalizer_run (cr : PackageRevision) (w : World)
    (hs : w.store = some cr) (r : Except Error PackageRevision) (w' : World)
    (h : Reconcile.addFinalizer cr w = (r, w')) :
    ∃ l, w'.calls = w.calls ++ l ∧ w'.events = w.events ∧ AddRun cr l r ∧
      ∀ cr1, r = .ok cr1 → w'.store = some cr1 ∧ PackageRevisionFinalizer ∈ cr1.Finalizers := by
  obtain ⟨l, hc, he, hcases⟩ := addFinalizer_spec cr w hs r w' h
  refine ⟨l, hc, he, ?_, ?_⟩
  · rcases hcases with ⟨h1, h2, -, h3⟩ | ⟨h1, h2 | ⟨h2, -, h3⟩⟩
    · exact Or.inl ⟨h1, h2, h3⟩
    · exact Or.inr ⟨h1, Or.inl h2⟩
    · exact Or.inr ⟨h1, Or.inr ⟨h2, h3⟩⟩
  · intro cr1 hr
    rcases hcases with ⟨h1, h2, h3, -⟩ | ⟨-, ⟨e, h2, -⟩ | ⟨h2, h3, -⟩⟩
    · rw [hr] at h2; cases h2; exact ⟨h3, h1⟩
    · rw [hr] at h2; cases h2
    · rw [hr] at h2; cases h2; exact ⟨h3, by simp⟩

theorem finalize_run (req : Request) (cr : PackageRevision) (w : World)
    (hfin : PackageRevisionFinalizer ∈ cr.Finalizers)
    (hs : w.store = some cr) (r : Except Error PackageRevision) (w' : World)
    (h : Reconcile.finalize req cr w = (r, w')) :
    ∃ l ev, w'.calls = w.calls ++ l ∧ w'.events = w.events ++ ev ∧ FinalizeRun req cr l ev r := by
  obtain ⟨t2, t3, l, hc, hcases⟩ := finalize_spec req cr w hfin hs r w' h
  rcases hcases with ⟨e, h1, h2, h3⟩ | ⟨e, h1, h2, h3⟩ | ⟨e, h1, h2, h3⟩ | ⟨e, h1, h2, h3⟩ |
    ⟨h1, -, h2, h3⟩
  · exact ⟨l, [], hc, by simpa using h2, t2, t3, Or.inl ⟨e, h1, rfl, h3⟩⟩
  · exact ⟨l, _, hc, h2, t2, t3, Or.inr (Or.inl ⟨e, h1, rfl, h3⟩)⟩
  · exact ⟨l, _, hc, h2, t2, t3, Or.inr (Or.inr (Or.inl ⟨e, h1, rfl, h3⟩))⟩
  · exact ⟨l, _, hc, h2, t2, t3, Or.inr (Or.inr (Or.inr (Or.inl ⟨e, h1, rfl, h3⟩)))⟩
  · exact ⟨l, _, hc, h2, t2, t3, Or.inr (Or.inr (Or.inr (Or.inr ⟨h1, rfl, h3⟩)))⟩

theorem available_run (cr : PackageRevision) (w : World)
    (hs : w.store = some cr) (r : Except Error PackageRevision) (w' : World)
    (h : Reconcile.available cr w = (r, w')) :
    ∃ l, w'.calls = w.calls ++ l ∧ w'.events = w.events ∧ AvailableRun cr l r := by
  obtain ⟨t, he, hcases⟩ := available_spec cr w hs r w' h
  rcases hcases with ⟨e, h1, h2⟩ | ⟨h1, -, h2⟩
  · exact ⟨_, h2, he, t, Or.inl ⟨e, h1, rfl⟩⟩
  · exact ⟨_, h2, he, t, Or.inr ⟨h1, rfl⟩⟩

/-- Every run of `Reconcile` returns an empty `Result` and is one of the runs
`ReconcileRun` lists. -/
theorem Reconcile_spec (req : Request) (w : World) :
    (Reconcile req w).1.1 = Result.empty ∧
    ∃ l ev, (Reconcile req w).2.calls = w.calls ++ l ∧
      (Reconcile req w).2.events = w.events ++ ev ∧
      ReconcileRun req w.store l ev (Reconcile req w).1.2 ∧
      (∀ cr, (Get req.NamespacedName w).1 = .ok cr →
        w.store = some cr ∧ l.head? = some (.get req.NamespacedName, none)) := by
  unfold Reconcile
  split
  · next err w0 hget =>
    obtain ⟨hev, -, -, hg⟩ := Get_inv _ _ _ _ hget
    rcases hg with ⟨obj, -, hr, -⟩ | ⟨e, hr, hcalls⟩
    · cases hr
    · cases hr
      have hno : ∀ cr, (Get req.NamespacedName w).1 = .ok cr →
          w.store = some cr ∧
            [(Call.get req.NamespacedName, some err)].head? =
              some (.get req.NamespacedName, none) := by
        intro cr hcr
        rw [hget] at hcr
        cases hcr
      by_cases hnf : IsNotFound err = true
      · rw [if_pos hnf]
        exact ⟨rfl, _, [], hcalls, by simpa using hev,
          Or.inl ⟨err, rfl, rfl, by simp [hnf]⟩, hno⟩
      · rw [if_neg hnf]
        exact ⟨rfl, _, [], hcalls, by simpa using hev,
          Or.inl ⟨err, rfl, rfl, by simp [hnf]⟩, hno⟩
  · next cr w0 hget =>
    obtain ⟨hev0, -, hst0, hg⟩ := Get_inv _ _ _ _ hget
    rcases hg with ⟨obj, hobj, hr, hcalls0⟩ | ⟨e, hr, -⟩
    swap
    · cases hr
    cases hr
    rw [hobj] at hst0
    have hyes : ∀ (l' : List (Call × Option Error)) (cr' : PackageRevision),
        (Get req.NamespacedName w).1 = .ok cr' →
        w.store = some cr' ∧
          ((Call.get req.NamespacedName, (none : Option Error)) :: l').head? =
            some (.get req.NamespacedName, none) := by
      intro l' cr' hcr
      rw [hget] at hcr
      cases hcr
      exact ⟨hobj, rfl⟩
    split
    · next err w1 hinit =>
      obtain ⟨l1, hc1, he1, hrun1, -⟩ := initStatus_run req cr w0 hst0 _ _ hinit
      refine ⟨rfl, _ :: l1, [], ?_, ?_, Or.inr ⟨cr, l1, _, hobj, hrun1,
        Or.inl ⟨err, rfl, rfl, rfl, rfl⟩⟩, hyes _⟩
      · rw [hc1, hcalls0]; simp
      · rw [he1, hev0]; simp
    · next cr1 w1 hinit =>
      obtain ⟨l1, hc1, he1, hrun1, hst1⟩ := initStatus_run req cr w0 hst0 _ _ hinit
      have hst1' := hst1 cr1 rfl
      split
      · next err w2 hadd =>
        obtain ⟨l2, hc2, he2, hrun2, -⟩ := addFinalizer_run cr1 w1 hst1' _ _ hadd
        refine ⟨rfl, _ :: (l1 ++ l2), [], ?_, ?_, Or.inr ⟨cr, l1, _, hobj, hrun1,
          Or.inr ⟨cr1, l2, _, rfl, hrun2, Or.inl ⟨err, rfl, rfl, rfl, rfl⟩⟩⟩, hyes _⟩
        · rw [hc2, hc1, hcalls0]; simp
        · rw [he2, he1, hev0]; simp
      · next cr2 w2 hadd =>
        obtain ⟨l2, hc2, he2, hrun2, hst2⟩ := addFinalizer_run cr1 w1 hst1' _ _ hadd
        obtain ⟨hst2', hfin2⟩ := hst2 cr2 rfl
        by_cases hd : cr2.DeletionTimestamp.isSome = true
        · simp only [hd, if_true]
          rcases hfz : Reconcile.finalize req cr2 w2 with ⟨r3, w3⟩
          obtain ⟨l3, ev, hc3, he3, hrun3⟩ := finalize_run req cr2 w2 hfin2 hst2' _ _ hfz
          have hres : (match ((r3, w3) : Except Error PackageRevision × World) with
              | (.error err, w) => ((Result.empty, some err), w)
              | (.ok _, w) => ((Result.empty, none), w)) = ((Result.empty, errorOf r3), w3) := by
            cases r3 <;> rfl
          rw [hres]
          refine ⟨rfl, _ :: (l1 ++ l2 ++ l3), ev, ?_, ?_, Or.inr ⟨cr, l1, _, hobj, hrun1,
            Or.inr ⟨cr1, l2, _, rfl, hrun2, Or.inr ⟨cr2, l3, r3, rfl, rfl, rfl,
              Or.inl ⟨hd, hrun3⟩⟩⟩⟩, hyes _⟩
          · show w3.calls = _
            rw [hc3, hc2, hc1, hcalls0]; simp
          · show w3.events = _
            rw [he3, he2, he1, hev0]
        · simp only [hd, if_false]
          rcases hav : Reconcile.available cr2 w2 with ⟨r3, w3⟩
          obtain ⟨l3, hc3, he3, hrun3⟩ := available_run cr2 w2 hst2' _ _ hav
          have hres : (match ((r3, w3) : Except Error PackageRevision × World) with
              | (.error err, w) => ((Result.empty, some err), w)
              | (.ok _, w) => ((Result.empty, none), w)) = ((Result.empty, errorOf r3), w3) := by
            cases r3 <;> rfl
          rw [hres]
          refine ⟨rfl, _ :: (l1 ++ l2 ++ l3), [], ?_, ?_, Or.inr ⟨cr, l1, _, hobj, hrun1,
            Or.inr ⟨cr1, l2, _, rfl, hrun2, Or.inr ⟨cr2, l3, r3, rfl, rfl, rfl,
              Or.inr ⟨by simpa using hd, rfl, hrun3⟩⟩⟩⟩, hyes _⟩
          · show w3.calls = _
            rw [hc3, hc2, hc1, hcalls0]; simp
          · show w3.events = _
            rw [he3, he2, he1, hev0]; simp

/-- Before a failing call every call went through, and the error returned is
that of the failing call, but for a NotFound on the first call. -/
theorem ReconcileRun_discipline (req : Request) (store : Option PackageRevision)
    (l : List (Call × Option Error)) (ev : List Event) (err : Option Error)
    (h : ReconcileRun req store l ev err) :
    ((∀ x ∈ l, x.2 = none) ∧ err = none) ∨
    (∃ l' c e, l = l' ++ [(c, some e)] ∧ (∀ x ∈ l', x.2 = none) ∧
      ((l' = [] ∧ IsNotFound e = true ∧ err = none) ∨
       (¬ (l' = [] ∧ IsNotFound e = true) ∧ err = some e))) := by
  unfold ReconcileRun at h
  rcases h with ⟨e, rfl, -, rfl⟩ | ⟨cr, l1, r1, -, hinit, h⟩
  · refine Or.inr ⟨[], _, e, rfl, by simp, ?_⟩
    by_cases hnf : IsNotFound e = true
    · exact Or.inl ⟨rfl, hnf, by simp [hnf]⟩
    · exact Or.inr ⟨by simp [hnf], by simp [hnf]⟩
  · unfold InitRun at hinit
    rcases h with ⟨e, rfl, rfl, -, rfl⟩ | ⟨cr1, l2, r2, rfl, hadd, h⟩
    · rcases hinit with ⟨-, h2, -⟩ | ⟨-, t, ⟨e', h2, rfl⟩ | ⟨e', h2, rfl⟩ | ⟨h2, -⟩⟩
      · cases h2
      · cases h2
        exact Or.inr ⟨[(.get req.NamespacedName, none)], _, e, rfl, by simp,
          Or.inr ⟨by simp, rfl⟩⟩
      · cases h2
        exact Or.inr ⟨[(.get req.NamespacedName, none), _], _, e, rfl, by simp,
          Or.inr ⟨by simp, rfl⟩⟩
      · cases h2
    · have hl1 : ∀ x ∈ l1, x.2 = none := by
        rcases hinit with ⟨-, -, rfl⟩ | ⟨-, t, ⟨e', h2, -⟩ | ⟨e', h2, -⟩ | ⟨-, rfl⟩⟩
        · simp
        · cases h2
        · cases h2
        · simp
      unfold AddRun at hadd
      rcases h with ⟨e, rfl, rfl, -, rfl⟩ | ⟨cr2, l3, r3, rfl, rfl, rfl, h⟩
      · rcases hadd with ⟨-, h2, -⟩ | ⟨-, ⟨e', h2, rfl⟩ | ⟨h2, -⟩⟩
        · cases h2
        · cases h2
          refine Or.inr ⟨(.get req.NamespacedName, none) :: l1, _, e, rfl, ?_,
            Or.inr ⟨by simp, rfl⟩⟩
          intro x hx
          rcases List.mem_cons.mp hx with rfl | hx
          · rfl
          · exact hl1 x hx
        · cases h2
      · have hl2 : ∀ x ∈ l2, x.2 = none := by
          rcases hadd with ⟨-, -, rfl⟩ | ⟨-, ⟨e', h2, -⟩ | ⟨-, rfl⟩⟩
          · simp
          · cases h2
          · simp
        have hpre : ∀ x ∈ (.get req.NamespacedName, none) :: (l1 ++ l2), x.2 = none := by
          intro x hx
          rcases List.mem_cons.mp hx with rfl | hx
          · rfl
          · rcases List.mem_append.mp hx with hx | hx
            · exact hl1 x hx
            · exact hl2 x hx
        have key : ∀ (r3 : Except Error PackageRevision) (l3 : List (Call × Option Error)),
            ((∃ cr3, r3 = .ok cr3) ∧ (∀ x ∈ l3, x.2 = none)) ∨
            (∃ e l3' c, r3 = .error e ∧ l3 = l3' ++ [(c, some e)] ∧ ∀ x ∈ l3', x.2 = none) →
            ((∀ x ∈ (.get req.NamespacedName, none) :: (l1 ++ l2 ++ l3), x.2 = none) ∧
                errorOf r3 = none) ∨
            (∃ l' c e, (.get req.NamespacedName, none) :: (l1 ++ l2 ++ l3) = l' ++ [(c, some e)] ∧
              (∀ x ∈ l', x.2 = none) ∧
              ((l' = [] ∧ IsNotFound e = true ∧ errorOf r3 = none) ∨
               (¬ (l' = [] ∧ IsNotFound e = true) ∧ errorOf r3 = some e))) := by
          intro r3 l3 h3
          rcases h3 with ⟨⟨cr3, rfl⟩, hl3⟩ | ⟨e, l3', c, rfl, rfl, hl3'⟩
          · refine Or.inl ⟨?_, rfl⟩
            intro x hx
            rw [← List.cons_append] at hx
            rcases List.mem_append.mp hx with hx | hx
            · exact hpre x hx
            · exact hl3 x hx
          · refine Or.inr ⟨(.get req.NamespacedName, none) :: (l1 ++ l2 ++ l3'), c, e,
              by simp, ?_, Or.inr ⟨by simp, rfl⟩⟩
            intro x hx
            rw [← List.cons_append] at hx
            rcases List.mem_append.mp hx with hx | hx
            · exact hpre x hx
            · exact hl3' x hx
        apply key
        rcases h with ⟨-, hfz⟩ | ⟨-, -, hav⟩
        · unfold FinalizeRun at hfz
          rcases hfz with ⟨t2, t3, ⟨e, rfl, -, rfl⟩ | ⟨e, rfl, -, rfl⟩ | ⟨e, rfl, -, rfl⟩ |
            ⟨e, rfl, -, rfl⟩ | ⟨rfl, -, rfl⟩⟩
          · exact Or.inr ⟨e, [], _, rfl, rfl, by simp⟩
          · exact Or.inr ⟨e, [_], _, rfl, rfl, by simp⟩
          · exact Or.inr ⟨e, [_, _], _, rfl, rfl, by simp⟩
          · exact Or.inr ⟨e, [_, _, _], _, rfl, rfl, by simp⟩
          · exact Or.inl ⟨⟨_, rfl⟩, by simp⟩
        · unfold AvailableRun at hav
          rcases hav with ⟨t, ⟨e, rfl, rfl⟩ | ⟨rfl, rfl⟩⟩
          · exact Or.inr ⟨e, [], _, rfl, rfl, by simp⟩
          · exact Or.inl ⟨⟨_, rfl⟩, by simp⟩

theorem failing_call_is_last {α β : Type} (pre post l' : List (α × Option β)) (x y : α × Option β)
    (hx : x.2 ≠ none) (hl' : ∀ z ∈ l', z.2 = none)
    (h : pre ++ [x] ++ post = l' ++ [y]) : post = [] ∧ pre = l' ∧ x = y := by
  induction l' generalizing pre with
  | nil =>
    cases pre with
    | nil =>
      simp at h
      exact ⟨h.2, rfl, h.1⟩
    | cons p pre => simp at h
  | cons a l' ih =>
    cases pre with
    | nil =>
      simp at h
      exact absurd (h.1 ▸ hl' a (List.mem_cons_self _ _)) hx
    | cons p pre =>
      simp only [List.cons_append, List.cons.injEq] at h
      obtain ⟨hp, hrest⟩ := h
      obtain ⟨h1, h2, h3⟩ := ih pre (fun z hz => hl' z (List.mem_cons_of_mem _ hz)) hrest
      exact ⟨h1, by rw [hp, h2], h3⟩

/-- C4, amended.  Whenever a client call of a run returns an error, that call
is the last one the run issues, the `Result` is empty, and `Reconcile` returns
exactly that error, except that a NotFound error of the initial `Get` is
answered with a nil error. -/
theorem errors_propagated (req : Request) (w : World)
    (pre post : List (Call × Option Error)) (c : Call) (e : Error)
    (h : (Reconcile req w).2.calls = w.calls ++ pre ++ [(c, some e)] ++ post) :
    post = [] ∧ (Reconcile req w).1.1 = Result.empty ∧
    (pre = [] ∧ IsNotFound e = true → (Reconcile req w).1.2 = none) ∧
    (¬ (pre = [] ∧ IsNotFound e = true) → (Reconcile req w).1.2 = some e) := by
  obtain ⟨hres, l, ev, hcalls, -, hrun, -⟩ := Reconcile_spec req w
  rw [hcalls] at h
  have hl : pre ++ [(c, some e)] ++ post = l := by
    have : w.calls ++ l = w.calls ++ (pre ++ [(c, some e)] ++ post) := by
      rw [h]; simp
    exact (List.append_cancel_left this).symm
  rcases ReconcileRun_discipline req w.store l ev _ hrun with ⟨hall, -⟩ |
    ⟨l', c', e', hl', hok, hcase⟩
  · have hmem : (c, some e) ∈ l := by rw [← hl]; simp
    have := hall _ hmem
    simp at this
  · rw [hl'] at hl
    obtain ⟨hpost, hpre, hx⟩ := failing_call_is_last pre post l' (c, some e) (c', some e')
      (by simp) hok hl
    have he : e = e' := by
      have := congrArg Prod.snd hx
      simpa using this
    subst hpre he
    refine ⟨hpost, hres, ?_, ?_⟩
    · intro hpn
      rcases hcase with ⟨-, -, h3⟩ | ⟨h1, -⟩
      · exact h3
      · exact absurd hpn h1
    · intro hpn
      rcases hcase with ⟨h1, h2, -⟩ | ⟨-, h3⟩
      · exact absurd ⟨h1, h2⟩ hpn
      · exact h3

/-- Once the first `Degraded` status update went through, lines 140-190 record
exactly the `Deleting` event, whatever the later calls answer. -/
theorem finalize_events (req : Request) (cr : PackageRevision) (faults : List (Option Error))
    (clock : List Time) (calls : List (Call × Option Error)) (events : List Event)
    (hfin : PackageRevisionFinalizer ∈ cr.Finalizers) (h0 : faults.headD none = none) :
    (Reconcile.finalize req cr ⟨some cr, faults, clock, calls, events⟩).2.events =
      events ++ [deletingEvent cr] := by
  have hcont : cr.Finalizers.contains PackageRevisionFinalizer = true := by simpa using hfin
  simp only [Reconcile.finalize, ContainsFinalizer, hcont, if_true, SetStatusCondition_eq,
    StatusUpdate_mk, h0, doFinalizerOperationsForPackageRevision, RecorderEvent]
  split
  · next err w1 hget =>
    obtain ⟨hev, -, -, -⟩ := Get_inv _ _ _ _ hget
    exact hev
  · next cr4 w1 hget =>
    obtain ⟨hev, -, -, -⟩ := Get_inv _ _ _ _ hget
    split
    · next err w2 hsu =>
      obtain ⟨hev2, -, -⟩ := StatusUpdate_inv _ _ _ _ hsu
      simp only [] at hev2
      rw [hev2]
      exact hev
    · next cr5 w2 hsu =>
      obtain ⟨hev2, -, -⟩ := StatusUpdate_inv _ _ _ _ hsu
      simp only [] at hev2
      split
      · show w2.events = _
        rw [hev2]
        exact hev
      · rcases hup : Update (RemoveFinalizer cr5 PackageRevisionFinalizer).1 w2 with ⟨r, w3⟩
        obtain ⟨hev3, -, -⟩ := Update_inv _ _ _ _ hup
        show w3.events = _
        rw [hev3, hev2]
        exact hev

theorem isSome_of_ne_none {α : Type} (o : Option α) (h : o ≠ none) : o.isSome = true := by
  cases o with
  | none => exact absurd rfl h
  | some a => rfl

/-- C7.  An event is emitted on deletion and only then.  When the stored object
is marked for deletion and the client calls up to and including the first
`Degraded` status update go through, the run records exactly one event: the
`Warning` with reason `Deleting` and the message built from the object's name
and namespace.  When the stored object is not marked for deletion, or there is
no stored object, or the initial `Get` fails, the run records no event. -/
theorem event_on_deletion_only (req : Request) (w : World) :
    (∀ cr, w.store = some cr → cr.DeletionTimestamp ≠ none →
      succeedFor (1 + initCalls cr + finalizerCalls cr + 1) w.faults →
      (Reconcile req w).2.events = w.events ++
        [{ Namespace := cr.Namespace, Name := cr.Name, eventtype := "Warning",
           reason := "Deleting",
           message := "Custom Resource " ++ cr.Name ++
             " is being deleted from the namespace " ++ cr.Namespace }]) ∧
    (∀ cr, w.store = some cr → cr.DeletionTimestamp = none →
      (Reconcile req w).2.events = w.events) ∧
    (w.store = none → (Reconcile req w).2.events = w.events) ∧
    (∀ e, (Get req.NamespacedName w).1 = .error e → (Reconcile req w).2.events = w.events) := by
  refine ⟨?_, ?_, ?_, ?_⟩
  · intro cr hs hd hf
    obtain ⟨store, faults, clock, calls, events⟩ := w
    simp only at hs hf
    subst hs
    obtain ⟨t1, clock1, l, hrun, -⟩ := prepare_ok req cr faults clock calls events
      (succeedFor_mono _ _ _ hf (by omega))
    have hd' : (preparedObject cr t1).DeletionTimestamp.isSome = true :=
      isSome_of_ne_none _ hd
    rw [hrun, hd']
    simp only [if_true]
    have h0 : (faults.drop (1 + initCalls cr + finalizerCalls cr)).headD none = none :=
      succeedFor_headD_drop _ _ _ hf (by omega)
    have hev := finalize_events req (preparedObject cr t1) _ clock1 (calls ++ l) events
      (mem_ensuredFinalizers cr.Finalizers) h0
    rcases hfz : Reconcile.finalize req (preparedObject cr t1)
      ⟨some (preparedObject cr t1), faults.drop (1 + initCalls cr + finalizerCalls cr),
        clock1, calls ++ l, events⟩ with ⟨r3, w3⟩
    rw [hfz] at hev
    cases r3 <;> exact hev
  · intro cr hs hd
    obtain ⟨-, l, ev, -, hev, hrun, -⟩ := Reconcile_spec req w
    rw [hev]
    suffices h : ev = [] by simp [h]
    unfold ReconcileRun at hrun
    rcases hrun with ⟨e, -, h, -⟩ | ⟨cr', l1, r1, hs', hinit, h⟩
    · exact h
    · rw [hs] at hs'
      simp only [Option.some.injEq] at hs'
      subst hs'
      rcases h with ⟨e, -, -, h, -⟩ | ⟨cr1, l2, r2, rfl, hadd, h⟩
      · exact h
      · rcases h with ⟨e, -, -, h, -⟩ | ⟨cr2, l3, r3, rfl, -, -, h⟩
        · exact h
        · rcases h with ⟨hdel, -⟩ | ⟨-, h, -⟩
          · exfalso
            have h1 : cr1.DeletionTimestamp = cr.DeletionTimestamp := by
              unfold InitRun at hinit
              rcases hinit with ⟨-, h2, -⟩ | ⟨-, t, ⟨e', h2, -⟩ | ⟨e', h2, -⟩ | ⟨h2, -⟩⟩
              · cases h2; rfl
              · cases h2
              · cases h2
              · cases h2; rfl
            have h2 : cr2.DeletionTimestamp = cr1.DeletionTimestamp := by
              unfold AddRun at hadd
              rcases hadd with ⟨-, h2, -⟩ | ⟨-, ⟨e', h2, -⟩ | ⟨h2, -⟩⟩
              · cases h2; rfl
              · cases h2
              · cases h2; rfl
            rw [h2, h1, hd] at hdel
            simp at hdel
          · exact h
  · intro hs
    obtain ⟨-, l, ev, -, hev, hrun, -⟩ := Reconcile_spec req w
    rw [hev]
    unfold ReconcileRun at hrun
    rcases hrun with ⟨e, -, h, -⟩ | ⟨cr', l1, r1, hs', -⟩
    · simp [h]
    · rw [hs] at hs'
      cases hs'
  · intro e hget
    rcases Get_cases req.NamespacedName w with ⟨obj, -, -, h⟩ | ⟨e', h⟩
    · rw [h] at hget
      cases hget
    · rw [Reconcile, h]
      simp only []
      by_cases hnf : IsNotFound e' = true
      · rw [if_pos hnf]
      · rw [if_neg hnf]

theorem exists_mem_setConditionAt (cs : List Condition) (c : Condition) (t : Time) :
    ∃ m ∈ setConditionAt cs c t, m.Type_ = c.Type_ ∧ m.Status = c.Status := by
  obtain ⟨m, hT, hS, -, -, hfilter⟩ := filter_setConditionAt cs c t
  have hm : m ∈ (setConditionAt cs c t).filter (fun x => x.Type_ == c.Type_) := by
    rw [hfilter]; exact List.mem_cons_self _ _
  exact ⟨m, (List.mem_filter.mp hm).1, hT, hS⟩

theorem setConditionAt_singleton (cs : List Condition) (c x : Condition) (t : Time)
    (h : setConditionAt cs c t = [x]) : x.Type_ = c.Type_ ∧ x.Status = c.Status := by
  obtain ⟨m, hm, hT, hS⟩ := exists_mem_setConditionAt cs c t
  rw [h] at hm
  simp at hm
  subst hm
  exact ⟨hT, hS⟩

/-- The status updates of lines 140-211 never carry the starting condition alone. -/
theorem not_starting_payload (cs : List Condition) (c x : Condition) (t : Time)
    (hc : c.Type_ ≠ typeAvailablePackageRevision ∨ c.Status ≠ ConditionUnknown)
    (h : setConditionAt cs c t = [x]) :
    ¬ (x.Type_ = typeAvailablePackageRevision ∧ x.Status = ConditionUnknown) := by
  obtain ⟨hT, hS⟩ := setConditionAt_singleton cs c x t h
  rintro ⟨h1, h2⟩
  rcases hc with hc | hc
  · exact hc (hT ▸ h1)
  · exact hc (hS ▸ h2)

theorem AddRun_calls (cr : PackageRevision) (l : List (Call × Option Error))
    (r : Except Error PackageRevision) (h : AddRun cr l r) :
    l = [] ∨ ∃ o res, l = [(Call.update o, res)] := by
  unfold AddRun at h
  rcases h with ⟨-, -, rfl⟩ | ⟨-, ⟨e, -, rfl⟩ | ⟨-, rfl⟩⟩
  · exact Or.inl rfl
  · exact Or.inr ⟨_, _, rfl⟩
  · exact Or.inr ⟨_, _, rfl⟩

theorem AddRun_ok (cr cr2 : PackageRevision) (l : List (Call × Option Error))
    (h : AddRun cr l (.ok cr2)) :
    cr2.Name = cr.Name ∧ cr2.Namespace = cr.Namespace ∧
    cr2.DeletionTimestamp = cr.DeletionTimestamp ∧ cr2.Spec = cr.Spec ∧
    cr2.Status = cr.Status := by
  unfold AddRun at h
  rcases h with ⟨-, h2, -⟩ | ⟨-, ⟨e, h2, -⟩ | ⟨h2, -⟩⟩
  · cases h2; exact ⟨rfl, rfl, rfl, rfl, rfl⟩
  · cases h2
  · cases h2; exact ⟨rfl, rfl, rfl, rfl, rfl⟩

/-- The shape of the calls of lines 140-190: a `Degraded` status update, then,
when it went through, the re-fetch, a second `Degraded` status update and the
closing `Update`. -/
theorem FinalizeRun_calls (req : Request) (cr : PackageRevision)
    (l : List (Call × Option Error)) (ev : List Event) (r : Except Error PackageRevision)
    (h : FinalizeRun req cr l ev r) :
    ∃ t2 t3 res0, ∃ rest : List (Call × Option Error),
      l = (Call.statusUpdate (finalizingObject cr t2), res0) :: rest ∧
      (rest = [] ∨ res0 = none ∧ ∃ res1 rest', rest = (Call.get req.NamespacedName, res1) :: rest' ∧
        (rest' = [] ∨ ∃ res2 rest'', rest' =
          (Call.statusUpdate (finalizedObject cr t2 t3), res2) :: rest'' ∧
          (rest'' = [] ∨ ∃ o res3, rest'' = [(Call.update o, res3)]))) := by
  unfold FinalizeRun at h
  rcases h with ⟨t2, t3, ⟨e, -, -, rfl⟩ | ⟨e, -, -, rfl⟩ | ⟨e, -, -, rfl⟩ |
    ⟨e, -, -, rfl⟩ | ⟨-, -, rfl⟩⟩
  · exact ⟨t2, t3, _, _, rfl, Or.inl rfl⟩
  · exact ⟨t2, t3, _, _, rfl, Or.inr ⟨rfl, _, _, rfl, Or.inl rfl⟩⟩
  · exact ⟨t2, t3, _, _, rfl, Or.inr ⟨rfl, _, _, rfl, Or.inr ⟨_, _, rfl, Or.inl rfl⟩⟩⟩
  · exact ⟨t2, t3, _, _, rfl, Or.inr ⟨rfl, _, _, rfl, Or.inr ⟨_, _, rfl,
      Or.inr ⟨_, _, rfl⟩⟩⟩⟩
  · exact ⟨t2, t3, _, _, rfl, Or.inr ⟨rfl, _, _, rfl, Or.inr ⟨_, _, rfl,
      Or.inr ⟨_, _, rfl⟩⟩⟩⟩

theorem AvailableRun_calls (cr : PackageRevision) (l : List (Call × Option Error))
    (r : Except Error PackageRevision) (h : AvailableRun cr l r) :
    ∃ t res, l = [(Call.statusUpdate (reportedObject cr t), res)] := by
  unfold AvailableRun at h
  rcases h with ⟨t, ⟨e, -, rfl⟩ | ⟨-, rfl⟩⟩
  · exact ⟨t, _, rfl⟩
  · exact ⟨t, _, rfl⟩

/-- C6, amended.  For a fetched object without conditions, the call after the
initial `Get`, the first write, is a status `Update` whose conditions are
exactly one `Available` condition with status `Unknown`, reason `Reconciling`
and message `Starting reconciliation`; when that update goes through, the next
call is the re-fetch.  For a fetched object with conditions, no status update of
the run carries that lone starting condition, and every later `Get` directly
follows a status update, gone through, of a `Degraded` condition: it is the
re-fetch of the deletion path. -/
theorem status_initialised (req : Request) (w : World) (cr : PackageRevision)
    (hget : (Get req.NamespacedName w).1 = .ok cr) :
    (cr.Status.Conditions = [] →
      ∃ obj c r rest,
        (Reconcile req w).2.calls =
          w.calls ++ (Call.get req.NamespacedName, none) :: (Call.statusUpdate obj, r) :: rest ∧
        obj.Status.Conditions = [c] ∧ c.Type_ = typeAvailablePackageRevision ∧
        c.Status = ConditionUnknown ∧ c.Reason = "Reconciling" ∧
        c.Message = "Starting reconciliation" ∧
        (r = none → ∃ r' rest', rest = (Call.get req.NamespacedName, r') :: rest')) ∧
    (cr.Status.Conditions ≠ [] →
      ∃ l, (Reconcile req w).2.calls = w.calls ++ (Call.get req.NamespacedName, none) :: l ∧
        (∀ x ∈ l, ∀ obj c, x.1 = Call.statusUpdate obj → obj.Status.Conditions = [c] →
          ¬ (c.Type_ = typeAvailablePackageRevision ∧ c.Status = ConditionUnknown)) ∧
        (∀ i key r, l[i]? = some (Call.get key, r) →
          0 < i ∧ ∃ obj c, l[i - 1]? = some (Call.statusUpdate obj, none) ∧
            c ∈ obj.Status.Conditions ∧ c.Type_ = typeDegradedPackageRevision)) := by
  obtain ⟨-, l, ev, hcalls, -, hrun, hhead⟩ := Reconcile_spec req w
  obtain ⟨hs, hhd⟩ := hhead cr hget
  unfold ReconcileRun at hrun
  rcases hrun with ⟨e, rfl, -, -⟩ | ⟨cr', l1, r1, hs', hinit, h⟩
  · simp at hhd
  rw [hs] at hs'
  simp only [Option.some.injEq] at hs'
  subst hs'
  unfold InitRun at hinit
  constructor
  · intro hc
    have hstart : ∀ t, (startedObject cr t).Status.Conditions =
        [{ startingCondition with LastTransitionTime := t }] := fun t => rfl
    rcases hinit with ⟨hne, -, -⟩ | ⟨-, t, ⟨e', h2, rfl⟩ | ⟨e', h2, rfl⟩ | ⟨h2, rfl⟩⟩
    · exact absurd hc hne
    · subst h2
      rcases h with ⟨e, -, rfl, -, -⟩ | ⟨cr1, l2, r2, hr, -⟩
      · exact ⟨_, _, _, [], hcalls, hstart t, rfl, rfl, rfl, rfl, by simp⟩
      · cases hr
    · subst h2
      rcases h with ⟨e, -, rfl, -, -⟩ | ⟨cr1, l2, r2, hr, -⟩
      · exact ⟨_, _, _, _, hcalls, hstart t, rfl, rfl, rfl, rfl, fun _ => ⟨_, _, rfl⟩⟩
      · cases hr
    · subst h2
      rcases h with ⟨e, hr, -⟩ | ⟨cr1, l2, r2, -, -, h⟩
      · cases hr
      · rcases h with ⟨e, -, rfl, -, -⟩ | ⟨cr2, l3, r3, -, rfl, -, -⟩
        · exact ⟨_, _, _, _, hcalls, hstart t, rfl, rfl, rfl, rfl, fun _ => ⟨_, _, rfl⟩⟩
        · exact ⟨_, _, _, _, hcalls, hstart t, rfl, rfl, rfl, rfl, fun _ => ⟨_, _, rfl⟩⟩
  · intro hc
    have hFO : ∀ (cr2 : PackageRevision) (t2 : Time) (c : Condition),
        (finalizingObject cr2 t2).Status.Conditions = [c] →
        ¬ (c.Type_ = typeAvailablePackageRevision ∧ c.Status = ConditionUnknown) :=
      fun cr2 t2 c h => not_starting_payload _ (finalizingCondition cr2) c t2
        (Or.inl (show typeDegradedPackageRevision ≠ typeAvailablePackageRevision by decide)) h
    have hFD : ∀ (cr2 : PackageRevision) (t2 t3 : Time) (c : Condition),
        (finalizedObject cr2 t2 t3).Status.Conditions = [c] →
        ¬ (c.Type_ = typeAvailablePackageRevision ∧ c.Status = ConditionUnknown) :=
      fun cr2 t2 t3 c h => not_starting_payload _ (finalizedCondition cr2) c t3
        (Or.inl (show typeDegradedPackageRevision ≠ typeAvailablePackageRevision by decide)) h
    have hRO : ∀ (cr2 : PackageRevision) (t : Time) (c : Condition),
        (reportedObject cr2 t).Status.Conditions = [c] →
        ¬ (c.Type_ = typeAvailablePackageRevision ∧ c.Status = ConditionUnknown) :=
      fun cr2 t c h => not_starting_payload _ (availableCondition cr2) c t
        (Or.inr (show ConditionTrue ≠ ConditionUnknown by decide)) h
    have hDeg : ∀ (cr2 : PackageRevision) (t2 : Time),
        ∃ c, c ∈ (finalizingObject cr2 t2).Status.Conditions ∧
          c.Type_ = typeDegradedPackageRevision := by
      intro cr2 t2
      obtain ⟨m, hm, hT, -⟩ :=
        exists_mem_setConditionAt cr2.Status.Conditions (finalizingCondition cr2) t2
      exact ⟨m, hm, hT⟩
    rcases hinit with ⟨-, h1, rfl⟩ | ⟨hc', -⟩
    swap
    · exact absurd hc' hc
    subst h1
    rcases h with ⟨e, hr, -⟩ | ⟨cr1, l2, r2, hr, hadd, h⟩
    · cases hr
    cases hr
    have hl2 := AddRun_calls _ _ _ hadd
    rcases h with ⟨e, rfl, rfl, -, -⟩ | ⟨cr2, l3, r3, rfl, rfl, -, h⟩
    · refine ⟨_, hcalls, ?_, ?_⟩
      · rcases hl2 with rfl | ⟨o, res, rfl⟩
        · simp
        · simp
      · rcases hl2 with rfl | ⟨o, res, rfl⟩
        · simp
        · intro i key r hi
          rcases i with _ | i <;> simp at hi
    · have hl3 : (∃ t2 t3 res0, ∃ rest : List (Call × Option Error),
          l3 = (Call.statusUpdate (finalizingObject cr2 t2), res0) :: rest ∧
          (rest = [] ∨ res0 = none ∧ ∃ res1 rest',
            rest = (Call.get req.NamespacedName, res1) :: rest' ∧
            (rest' = [] ∨ ∃ res2 rest'', rest' =
              (Call.statusUpdate (finalizedObject cr2 t2 t3), res2) :: rest'' ∧
              (rest'' = [] ∨ ∃ o res3, rest'' = [(Call.update o, res3)])))) ∨
          (∃ t res, l3 = [(Call.statusUpdate (reportedObject cr2 t), res)]) := by
        rcases h with ⟨-, hfz⟩ | ⟨-, -, hav⟩
        · exact Or.inl (FinalizeRun_calls _ _ _ _ _ hfz)
        · exact Or.inr (AvailableRun_calls _ _ _ hav)
      refine ⟨_, hcalls, ?_, ?_⟩
      · intro x hx obj c hxo hcs
        simp only [List.nil_append, List.mem_append] at hx
        rcases hx with hx | hx
        · rcases hl2 with rfl | ⟨o, res, rfl⟩
          · simp at hx
          · simp at hx
            subst hx
            simp at hxo
        · rcases hl3 with ⟨t2, t3, res0, rest, rfl, hrest⟩ | ⟨t, res, rfl⟩
          · rcases List.mem_cons.mp hx with rfl | hx
            · simp at hxo
              subst hxo
              exact hFO _ _ _ hcs
            · rcases hrest with rfl | ⟨-, res1, rest', rfl, hrest'⟩
              · simp at hx
              · rcases List.mem_cons.mp hx with rfl | hx
                · simp at hxo
                · rcases hrest' with rfl | ⟨res2, rest'', rfl, hrest''⟩
                  · simp at hx
                  · rcases List.mem_cons.mp hx with rfl | hx
                    · simp at hxo
                      subst hxo
                      exact hFD _ _ _ _ hcs
                    · rcases hrest'' with rfl | ⟨o, res3, rfl⟩
                      · simp at hx
                      · simp at hx
                        subst hx
                        simp at hxo
          · simp at hx
            subst hx
            simp at hxo
            subst hxo
            exact hRO _ _ _ hcs
      · intro i key r hi
        rcases hl3 with ⟨t2, t3, res0, rest, rfl, hrest⟩ | ⟨t, res, rfl⟩
        · obtain ⟨c, hc1, hc2⟩ := hDeg cr2 t2
          rcases hl2 with rfl | ⟨o, res, rfl⟩
          · rcases hrest with rfl | ⟨rfl, res1, rest', rfl, hrest'⟩
            · rcases i with _ | i <;> simp at hi
            · rcases hrest' with rfl | ⟨res2, rest'', rfl, hrest''⟩
              · rcases i with _ | _ | i <;> simp at hi
                exact ⟨by omega, _, c, rfl, hc1, hc2⟩
              · rcases hrest'' with rfl | ⟨o, res3, rfl⟩
                · rcases i with _ | _ | _ | i <;> simp at hi
                  exact ⟨by omega, _, c, rfl, hc1, hc2⟩
                · rcases i with _ | _ | _ | _ | i <;> simp at hi
                  exact ⟨by omega, _, c, rfl, hc1, hc2⟩
          · rcases hrest with rfl | ⟨rfl, res1, rest', rfl, hrest'⟩
            · rcases i with _ | _ | i <;> simp at hi
            · rcases hrest' with rfl | ⟨res2, rest'', rfl, hrest''⟩
              · rcases i with _ | _ | _ | i <;> simp at hi
                exact ⟨by omega, _, c, rfl, hc1, hc2⟩
              · rcases hrest'' with rfl | ⟨o, res3, rfl⟩
                · rcases i with _ | _ | _ | _ | i <;> simp at hi
                  exact ⟨by omega, _, c, rfl, hc1, hc2⟩
                · rcases i with _ | _ | _ | _ | _ | i <;> simp at hi
                  exact ⟨by omega, _, c, rfl, hc1, hc2⟩
        · rcases hl2 with rfl | ⟨o, res', rfl⟩
          · rcases i with _ | i <;> simp at hi
          · rcases i with _ | _ | i <;> simp at hi

/-! ## Runs on objects that differ in their `Spec` -/

theorem callShapes_snoc (l1 l2 : List (Call × Option Error)) (c1 c2 : Call) (r : Option Error)
    (h : callShapes l2 = callShapes l1)
    (hc : c2.withSpec PackageRevisionSpec.zero = c1.withSpec PackageRevisionSpec.zero) :
    callShapes (l2 ++ [(c2, r)]) = callShapes (l1 ++ [(c1, r)]) := by
  unfold callShapes at h ⊢
  rw [List.map_append, List.map_append, h]
  simp [hc]

theorem Get_sim (s : PackageRevisionSpec) (key : NamespacedName) (w1 w2 : World)
    (h : SpecSim s w1 w2) :
    (Get key w2).1 = (Get key w1).1.map (fun o => o.withSpec s) ∧
    SpecSim s (Get key w1).2 (Get key w2).2 := by
  obtain ⟨h1, h2, h3, h4, h5⟩ := h
  simp only [Get, World.popFault, World.record, h2]
  cases hp : w1.faults.headD none with
  | some err =>
    simp only []
    exact ⟨rfl, h1, by simp [h2], h3, h4, callShapes_snoc _ _ _ _ _ h5 rfl⟩
  | none =>
    simp only []
    cases hst : w1.store with
    | none =>
      rw [hst] at h1
      simp only [h1, Option.map_none']
      exact ⟨rfl, by simp [hst], by simp [h2], h3, h4,
        callShapes_snoc _ _ _ _ _ h5 rfl⟩
    | some o1 =>
      rw [hst] at h1
      simp only [h1, Option.map_some']
      exact ⟨rfl, by simp [hst], by simp [h2], h3, h4,
        callShapes_snoc _ _ _ _ _ h5 rfl⟩

theorem StatusUpdate_sim (s : PackageRevisionSpec) (obj : PackageRevision) (w1 w2 : World)
    (h : SpecSim s w1 w2) :
    (StatusUpdate (obj.withSpec s) w2).1 =
      (StatusUpdate obj w1).1.map (fun o => o.withSpec s) ∧
    SpecSim s (StatusUpdate obj w1).2 (StatusUpdate (obj.withSpec s) w2).2 := by
  obtain ⟨h1, h2, h3, h4, h5⟩ := h
  simp only [StatusUpdate, World.popFault, World.record, h2]
  cases hp : w1.faults.headD none with
  | some err =>
    simp only []
    exact ⟨rfl, h1, by simp [h2], h3, h4, callShapes_snoc _ _ _ _ _ h5 rfl⟩
  | none =>
    simp only []
    cases hst : w1.store with
    | none =>
      rw [hst] at h1
      simp only [h1, Option.map_none']
      exact ⟨rfl, by simp [hst], by simp [h2], h3, h4, callShapes_snoc _ _ _ _ _ h5 rfl⟩
    | some o1 =>
      rw [hst] at h1
      simp only [h1, Option.map_some']
      exact ⟨rfl, by simp [hst, PackageRevision.withSpec], by simp [h2], h3, h4, callShapes_snoc _ _ _ _ _ h5 rfl⟩

theorem Update_sim (s : PackageRevisionSpec) (obj : PackageRevision) (w1 w2 : World)
    (h : SpecSim s w1 w2) :
    (Update (obj.withSpec s) w2).1 = (Update obj w1).1.map (fun o => o.withSpec s) ∧
    SpecSim s (Update obj w1).2 (Update (obj.withSpec s) w2).2 := by
  obtain ⟨h1, h2, h3, h4, h5⟩ := h
  simp only [Update, World.popFault, World.record, h2]
  cases hp : w1.faults.headD none with
  | some err =>
    simp only []
    exact ⟨rfl, h1, by simp [h2], h3, h4, callShapes_snoc _ _ _ _ _ h5 rfl⟩
  | none =>
    simp only []
    cases hst : w1.store with
    | none =>
      rw [hst] at h1
      simp only [h1, Option.map_none']
      exact ⟨rfl, by simp [hst], by simp [h2], h3, h4, callShapes_snoc _ _ _ _ _ h5 rfl⟩
    | some o1 =>
      rw [hst] at h1
      simp only [h1, Option.map_some']
      exact ⟨rfl, by simp [hst, PackageRevision.withSpec], by simp [h2], h3, h4, callShapes_snoc _ _ _ _ _ h5 rfl⟩

theorem SpecSim_clock (s : PackageRevisionSpec) (w1 w2 : World) (b : Bool)
    (h : SpecSim s w1 w2) :
    SpecSim s
      { store := w1.store, faults := w1.faults,
        clock := if b then w1.clock.tail else w1.clock, calls := w1.calls, events := w1.events }
      { store := w2.store, faults := w2.faults,
        clock := if b then w2.clock.tail else w2.clock, calls := w2.calls,
        events := w2.events } := by
  obtain ⟨h1, h2, h3, h4, h5⟩ := h
  exact ⟨h1, h2, by simp [h3], h4, h5⟩

theorem SpecSim_event (s : PackageRevisionSpec) (w1 w2 : World) (ev : Event)
    (h : SpecSim s w1 w2) :
    SpecSim s { w1 with events := w1.events ++ [ev] } { w2 with events := w2.events ++ [ev] } := by
  obtain ⟨h1, h2, h3, h4, h5⟩ := h
  exact ⟨h1, h2, h3, by simp [h4], h5⟩

theorem initStatus_sim (s : PackageRevisionSpec) (req : Request) (cr : PackageRevision)
    (w1 w2 : World) (h : SpecSim s w1 w2) :
    (Reconcile.initStatus req (cr.withSpec s) w2).1 =
      (Reconcile.initStatus req cr w1).1.map (fun o => o.withSpec s) ∧
    SpecSim s (Reconcile.initStatus req cr w1).2 (Reconcile.initStatus req (cr.withSpec s) w2).2 := by
  have hcs : (cr.withSpec s).Status.Conditions = cr.Status.Conditions := rfl
  unfold Reconcile.initStatus
  rw [hcs]
  by_cases hc : (cr.Status.Conditions.length == 0) = true
  · simp only [hc, if_true, SetStatusCondition_eq]
    have hclk : w2.clock = w1.clock := h.2.2.1
    rw [hclk]
    have hsim := SpecSim_clock s w1 w2 (readsClock cr.Status.Conditions startingCondition) h
    rw [hclk] at hsim
    obtain ⟨hr, hs'⟩ := StatusUpdate_sim s
      (cr.withConditions (setConditionAt cr.Status.Conditions startingCondition
        (w1.clock.headD 0))) _ _ hsim
    have hobj : (cr.withSpec s).withConditions (setConditionAt cr.Status.Conditions
        startingCondition (w1.clock.headD 0)) =
        (cr.withConditions (setConditionAt cr.Status.Conditions startingCondition
          (w1.clock.headD 0))).withSpec s := rfl
    rw [hobj]
    generalize StatusUpdate (cr.withConditions (setConditionAt cr.Status.Conditions
      startingCondition (w1.clock.headD 0))) _ = out1 at hr hs' ⊢
    generalize StatusUpdate ((cr.withConditions (setConditionAt cr.Status.Conditions
      startingCondition (w1.clock.headD 0))).withSpec s) _ = out2 at hr hs' ⊢
    obtain ⟨r1, v1⟩ := out1
    obtain ⟨r2, v2⟩ := out2
    simp only at hr hs'
    subst hr
    cases r1 with
    | error e => exact ⟨rfl, hs'⟩
    | ok a => exact Get_sim s req.NamespacedName v1 v2 hs'
  · simp only [hc, Bool.false_eq_true, if_false]
    exact ⟨rfl, h⟩

theorem addFinalizer_sim (s : PackageRevisionSpec) (cr : PackageRevision)
    (w1 w2 : World) (h : SpecSim s w1 w2) :
    (Reconcile.addFinalizer (cr.withSpec s) w2).1 =
      (Reconcile.addFinalizer cr w1).1.map (fun o => o.withSpec s) ∧
    SpecSim s (Reconcile.addFinalizer cr w1).2 (Reconcile.addFinalizer (cr.withSpec s) w2).2 := by
  have hcf : ContainsFinalizer (cr.withSpec s) PackageRevisionFinalizer =
      ContainsFinalizer cr PackageRevisionFinalizer := rfl
  unfold Reconcile.addFinalizer
  rw [hcf]
  by_cases hc : ContainsFinalizer cr PackageRevisionFinalizer = true
  · simp only [hc, Bool.not_true, Bool.false_eq_true, if_false]
    exact ⟨rfl, h⟩
  · have hc' : ContainsFinalizer cr PackageRevisionFinalizer = false := by simpa using hc
    have hadd1 : AddFinalizer cr PackageRevisionFinalizer =
        ({ cr with Finalizers := cr.Finalizers ++ [PackageRevisionFinalizer] }, true) := by
      unfold ContainsFinalizer at hc'
      simp only [AddFinalizer, hc', Bool.false_eq_true, if_false]
    have hadd2 : AddFinalizer (cr.withSpec s) PackageRevisionFinalizer =
        (({ cr with Finalizers := cr.Finalizers ++ [PackageRevisionFinalizer] } :
          PackageRevision).withSpec s, true) := by
      unfold ContainsFinalizer at hc'
      have : (cr.withSpec s).Finalizers = cr.Finalizers := rfl
      simp only [AddFinalizer, this, hc', Bool.false_eq_true, if_false]
      rfl
    simp only [hc', Bool.not_false, if_true, hadd1, hadd2, Bool.not_true, Bool.false_eq_true,
      if_false]
    exact Update_sim s _ w1 w2 h

theorem available_sim (s : PackageRevisionSpec) (cr : PackageRevision)
    (w1 w2 : World) (h : SpecSim s w1 w2) (hl : s.Lifecycle = cr.Spec.Lifecycle) :
    (Reconcile.available (cr.withSpec s) w2).1 =
      (Reconcile.available cr w1).1.map (fun o => o.withSpec s) ∧
    SpecSim s (Reconcile.available cr w1).2 (Reconcile.available (cr.withSpec s) w2).2 := by
  have hcs : (cr.withSpec s).Status.Conditions = cr.Status.Conditions := rfl
  have hav : availableCondition (cr.withSpec s) = availableCondition cr := by
    simp [availableCondition, PackageRevision.withSpec, hl]
  unfold Reconcile.available
  simp only [SetStatusCondition_eq, hcs, hav]
  have hclk : w2.clock = w1.clock := h.2.2.1
  rw [hclk]
  have hsim := SpecSim_clock s w1 w2 (readsClock cr.Status.Conditions (availableCondition cr)) h
  rw [hclk] at hsim
  exact StatusUpdate_sim s (cr.withConditions (setConditionAt cr.Status.Conditions
    (availableCondition cr) (w1.clock.headD 0))) _ _ hsim

theorem finalize_sim (s : PackageRevisionSpec) (req : Request) (cr : PackageRevision)
    (w1 w2 : World) (h : SpecSim s w1 w2) :
    (Reconcile.finalize req (cr.withSpec s) w2).1 =
      (Reconcile.finalize req cr w1).1.map (fun o => o.withSpec s) ∧
    SpecSim s (Reconcile.finalize req cr w1).2 (Reconcile.finalize req (cr.withSpec s) w2).2 := by
  have hcf : ContainsFinalizer (cr.withSpec s) PackageRevisionFinalizer =
      ContainsFinalizer cr PackageRevisionFinalizer := rfl
  have hcs : (cr.withSpec s).Status.Conditions = cr.Status.Conditions := rfl
  have hfc : finalizingCondition (cr.withSpec s) = finalizingCondition cr := rfl
  unfold Reconcile.finalize
  rw [hcf]
  by_cases hc : ContainsFinalizer cr PackageRevisionFinalizer = true
  swap
  · simp only [hc, Bool.false_eq_true, if_false]
    exact ⟨rfl, h⟩
  simp only [hc, if_true, SetStatusCondition_eq, hcs, hfc]
  have hclk : w2.clock = w1.clock := h.2.2.1
  rw [hclk]
  have hsim := SpecSim_clock s w1 w2 (readsClock cr.Status.Conditions (finalizingCondition cr)) h
  rw [hclk] at hsim
  obtain ⟨hr, hs'⟩ := StatusUpdate_sim s
    (cr.withConditions (setConditionAt cr.Status.Conditions (finalizingCondition cr)
      (w1.clock.headD 0))) _ _ hsim
  have hobj : (cr.withSpec s).withConditions (setConditionAt cr.Status.Conditions
      (finalizingCondition cr) (w1.clock.headD 0)) =
      (cr.withConditions (setConditionAt cr.Status.Conditions (finalizingCondition cr)
        (w1.clock.headD 0))).withSpec s := rfl
  rw [hobj]
  generalize StatusUpdate (cr.withConditions (setConditionAt cr.Status.Conditions
    (finalizingCondition cr) (w1.clock.headD 0))) _ = out1 at hr hs' ⊢
  generalize StatusUpdate ((cr.withConditions (setConditionAt cr.Status.Conditions
    (finalizingCondition cr) (w1.clock.headD 0))).withSpec s) _ = out2 at hr hs' ⊢
  obtain ⟨r1, v1⟩ := out1
  obtain ⟨r2, v2⟩ := out2
  simp only at hr hs'
  subst hr
  cases r1 with
  | error e => exact ⟨rfl, hs'⟩
  | ok a =>
    simp only [Except.map, doFinalizerOperationsForPackageRevision, RecorderEvent]
    have hev := SpecSim_event s v1 v2
      { Namespace := a.Namespace, Name := a.Name, eventtype := "Warning", reason := "Deleting",
        message := "Custom Resource " ++ a.Name ++ " is being deleted from the namespace " ++
          a.Namespace } hs'
    obtain ⟨hr2, hs2⟩ := Get_sim s req.NamespacedName _ _ hev
    have hn : (a.withSpec s).Name = a.Name := rfl
    have hns : (a.withSpec s).Namespace = a.Namespace := rfl
    simp only [hn, hns]
    generalize Get req.NamespacedName { v1 with events := _ } = g1 at hr2 hs2 ⊢
    generalize Get req.NamespacedName { v2 with events := _ } = g2 at hr2 hs2 ⊢
    obtain ⟨q1, u1⟩ := g1
    obtain ⟨q2, u2⟩ := g2
    simp only at hr2 hs2
    subst hr2
    cases q1 with
    | error e => exact ⟨rfl, hs2⟩
    | ok b =>
      simp only [Except.map, SetStatusCondition_eq]
      have hcs2 : (b.withSpec s).Status.Conditions = b.Status.Conditions := rfl
      have hfc2 : finalizedCondition (b.withSpec s) = finalizedCondition b := rfl
      have hclk2 : u2.clock = u1.clock := hs2.2.2.1
      simp only [hcs2, hfc2, hclk2]
      have hsim2 := SpecSim_clock s u1 u2
        (readsClock b.Status.Conditions (finalizedCondition b)) hs2
      rw [hclk2] at hsim2
      obtain ⟨hr3, hs3⟩ := StatusUpdate_sim s
        (b.withConditions (setConditionAt b.Status.Conditions (finalizedCondition b)
          (u1.clock.headD 0))) _ _ hsim2
      have hobj2 : (b.withSpec s).withConditions (setConditionAt b.Status.Conditions
          (finalizedCondition b) (u1.clock.headD 0)) =
          (b.withConditions (setConditionAt b.Status.Conditions (finalizedCondition b)
            (u1.clock.headD 0))).withSpec s := rfl
      rw [hobj2]
      generalize StatusUpdate (b.withConditions (setConditionAt b.Status.Conditions
        (finalizedCondition b) (u1.clock.headD 0))) _ = out3 at hr3 hs3 ⊢
      generalize StatusUpdate ((b.withConditions (setConditionAt b.Status.Conditions
        (finalizedCondition b) (u1.clock.headD 0))).withSpec s) _ = out4 at hr3 hs3 ⊢
      obtain ⟨r3, v3⟩ := out3
      obtain ⟨r4, v4⟩ := out4
      simp only at hr3 hs3
      subst hr3
      cases r3 with
      | error e => exact ⟨rfl, hs3⟩
      | ok d =>
        simp only [Except.map]
        have hrm : RemoveFinalizer (d.withSpec s) PackageRevisionFinalizer =
            ((RemoveFinalizer d PackageRevisionFinalizer).1.withSpec s,
              (RemoveFinalizer d PackageRevisionFinalizer).2) := rfl
        rw [hrm]
        simp only []
        by_cases hrem : (RemoveFinalizer d PackageRevisionFinalizer).2 = true
        · simp only [hrem, Bool.not_true, Bool.false_eq_true, if_false]
          exact Update_sim s _ v3 v4 hs3
        · have hrem' : (RemoveFinalizer d PackageRevisionFinalizer).2 = false := by
            simpa using hrem
          rw [hrem']
          exact ⟨rfl, hs3⟩

theorem InitRun_ok (req : Request) (cr cr1 : PackageRevision) (l : List (Call × Option Error))
    (h : InitRun req cr l (.ok cr1)) :
    cr1.Name = cr.Name ∧ cr1.Namespace = cr.Namespace ∧
    cr1.DeletionTimestamp = cr.DeletionTimestamp ∧ cr1.Spec = cr.Spec ∧
    cr1.Finalizers = cr.Finalizers := by
  unfold InitRun at h
  rcases h with ⟨-, h2, -⟩ | ⟨-, t, ⟨e, h2, -⟩ | ⟨e, h2, -⟩ | ⟨h2, -⟩⟩
  · cases h2; exact ⟨rfl, rfl, rfl, rfl, rfl⟩
  · cases h2
  · cases h2
  · cases h2; exact ⟨rfl, rfl, rfl, rfl, rfl⟩

/-- Two runs from worlds that agree but for the `Spec` of the stored object,
the `Lifecycle` being the same: same result, and the worlds still agree. -/
theorem Reconcile_sim (s : PackageRevisionSpec) (req : Request) (w1 w2 : World)
    (h : SpecSim s w1 w2) (hl : ∀ cr, w1.store = some cr → s.Lifecycle = cr.Spec.Lifecycle) :
    (Reconcile req w2).1 = (Reconcile req w1).1 ∧
    SpecSim s (Reconcile req w1).2 (Reconcile req w2).2 := by
  unfold Reconcile
  obtain ⟨hr, hs⟩ := Get_sim s req.NamespacedName w1 w2 h
  rcases hg1 : Get req.NamespacedName w1 with ⟨r1, v1⟩
  rcases hg2 : Get req.NamespacedName w2 with ⟨r2, v2⟩
  rw [hg1, hg2] at hr hs
  simp only at hr hs
  subst hr
  obtain ⟨-, -, hst1, hcase⟩ := Get_inv _ _ _ _ hg1
  cases r1 with
  | error e =>
    simp only [Except.map]
    by_cases hnf : IsNotFound e = true
    · rw [if_pos hnf, if_pos hnf]; exact ⟨rfl, hs⟩
    · rw [if_neg hnf, if_neg hnf]; exact ⟨rfl, hs⟩
  | ok a =>
    have hsa : w1.store = some a := by
      rcases hcase with ⟨obj, hobj, hr, -⟩ | ⟨e, hr, -⟩
      · cases hr; exact hobj
      · cases hr
    have hla := hl a hsa
    simp only [Except.map]
    obtain ⟨hr1, hs1⟩ := initStatus_sim s req a v1 v2 hs
    rcases hi1 : Reconcile.initStatus req a v1 with ⟨p1, x1⟩
    rcases hi2 : Reconcile.initStatus req (a.withSpec s) v2 with ⟨p2, x2⟩
    rw [hi1, hi2] at hr1 hs1
    simp only at hr1 hs1
    subst hr1
    obtain ⟨l1, -, -, hrun1, hstore1⟩ := initStatus_run req a v1 (hst1.trans hsa) _ _ hi1
    cases p1 with
    | error e => exact ⟨rfl, hs1⟩
    | ok b =>
      have hb := InitRun_ok req a b l1 hrun1
      simp only [Except.map]
      obtain ⟨hr2, hs2⟩ := addFinalizer_sim s b x1 x2 hs1
      rcases ha1 : Reconcile.addFinalizer b x1 with ⟨q1, y1⟩
      rcases ha2 : Reconcile.addFinalizer (b.withSpec s) x2 with ⟨q2, y2⟩
      rw [ha1, ha2] at hr2 hs2
      simp only at hr2 hs2
      subst hr2
      obtain ⟨l2, -, -, hrun2, -⟩ := addFinalizer_run b x1 (hstore1 b rfl) _ _ ha1
      cases q1 with
      | error e => exact ⟨rfl, hs2⟩
      | ok c =>
        have hc := AddRun_ok b c l2 hrun2
        simp only [Except.map]
        have hdel : (c.withSpec s).DeletionTimestamp = c.DeletionTimestamp := rfl
        rw [hdel]
        by_cases hd : c.DeletionTimestamp.isSome = true
        · simp only [hd, if_true]
          obtain ⟨hr3, hs3⟩ := finalize_sim s req c y1 y2 hs2
          rcases hf1 : Reconcile.finalize req c y1 with ⟨z1, u1⟩
          rcases hf2 : Reconcile.finalize req (c.withSpec s) y2 with ⟨z2, u2⟩
          rw [hf1, hf2] at hr3 hs3
          simp only at hr3 hs3
          subst hr3
          cases z1 with
          | error e => exact ⟨rfl, hs3⟩
          | ok d => exact ⟨rfl, hs3⟩
        · simp only [hd, Bool.false_eq_true, if_false]
          have hlc : s.Lifecycle = c.Spec.Lifecycle := by
            rw [hc.2.2.2.1, hb.2.2.2.1]; exact hla
          obtain ⟨hr3, hs3⟩ := available_sim s c y1 y2 hs2 hlc
          rcases hf1 : Reconcile.available c y1 with ⟨z1, u1⟩
          rcases hf2 : Reconcile.available (c.withSpec s) y2 with ⟨z2, u2⟩
          rw [hf1, hf2] at hr3 hs3
          simp only at hr3 hs3
          subst hr3
          cases z1 with
          | error e => exact ⟨rfl, hs3⟩
          | ok d => exact ⟨rfl, hs3⟩

/-- C10.  The reconciler applies no business rule to the `Spec`.  For two
objects with the same name, namespace, deletion timestamp, finalizers and status
that differ only in `Spec` fields other than `Lifecycle`, two runs under the same
client outcomes and clock return the same `Result` and error, record the same
events, issue the same calls (the `Spec` of the objects handed over apart), and
leave the same finalizers and status conditions. -/
theorem spec_fields_ignored (req : Request) (w : World) (cr1 cr2 : PackageRevision)
    (hs : w.store = some cr1)
    (hname : cr2.Name = cr1.Name) (hns : cr2.Namespace = cr1.Namespace)
    (hdel : cr2.DeletionTimestamp = cr1.DeletionTimestamp)
    (hfin : cr2.Finalizers = cr1.Finalizers) (hstatus : cr2.Status = cr1.Status)
    (hl : cr2.Spec.Lifecycle = cr1.Spec.Lifecycle) :
    (Reconcile req { w with store := some cr2 }).1 = (Reconcile req w).1 ∧
    (Reconcile req { w with store := some cr2 }).2.events = (Reconcile req w).2.events ∧
    callShapes (Reconcile req { w with store := some cr2 }).2.calls =
      callShapes (Reconcile req w).2.calls ∧
    (Reconcile req { w with store := some cr2 }).2.store.map (fun o => o.Finalizers) =
      (Reconcile req w).2.store.map (fun o => o.Finalizers) ∧
    (Reconcile req { w with store := some cr2 }).2.store.map (fun o => o.Status.Conditions) =
      (Reconcile req w).2.store.map (fun o => o.Status.Conditions) := by
  have hcr2 : cr2 = cr1.withSpec cr2.Spec := by
    obtain ⟨n2, ns2, d2, f2, s2, st2⟩ := cr2
    simp only at hname hns hdel hfin hstatus
    subst hname hns hdel hfin hstatus
    rfl
  have hsim : SpecSim cr2.Spec w { w with store := some cr2 } := by
    refine ⟨?_, rfl, rfl, rfl, rfl⟩
    rw [hs]
    exact congrArg some hcr2
  obtain ⟨hres, h1, -, -, h4, h5⟩ := Reconcile_sim cr2.Spec req w _ hsim (by
    intro cr' hcr'
    rw [hs] at hcr'
    cases hcr'
    exact hl)
  refine ⟨hres, h4, h5, ?_, ?_⟩
  · rw [h1]
    cases (Reconcile req w).2.store <;> rfl
  · rw [h1]
    cases (Reconcile req w).2.store <;> rfl

/-! ## Running `Reconcile` twice -/

theorem storeCondition_self (L : List Condition) (T : String) (e : Condition)
    (h : FindStatusCondition L T = some e) : storeCondition L T e = L := by
  induction L with
  | nil => simp [FindStatusCondition] at h
  | cons a l ih =>
    by_cases ha : a.Type_ = T
    · have : a = e := by simpa [FindStatusCondition, ha] using h
      subst this
      simp [storeCondition, ha]
    · have hfind : FindStatusCondition l T = some e := by
        simpa [FindStatusCondition, ha] using h
      simp [storeCondition, ha, ih hfind]

theorem find_storeCondition (L : List Condition) (T : String) (e m : Condition)
    (h : FindStatusCondition L T = some e) (hm : m.Type_ = T) :
    FindStatusCondition (storeCondition L T m) T = some m := by
  induction L with
  | nil => simp [FindStatusCondition] at h
  | cons a l ih =>
    by_cases ha : a.Type_ = T
    · simp [storeCondition, ha, FindStatusCondition, hm]
    · have hfind : FindStatusCondition l T = some e := by
        simpa [FindStatusCondition, ha] using h
      have := ih hfind
      simp only [FindStatusCondition] at this
      simp [storeCondition, ha, FindStatusCondition, this]

theorem find_append_of_none (L : List Condition) (T : String) (c : Condition)
    (h : FindStatusCondition L T = none) (hc : c.Type_ = T) :
    FindStatusCondition (L ++ [c]) T = some c := by
  unfold FindStatusCondition at h ⊢
  rw [List.find?_append, h]
  simp [hc]

theorem storeCondition_append_of_none (L : List Condition) (T : String) (c m : Condition)
    (h : FindStatusCondition L T = none) (hc : c.Type_ = T) :
    storeCondition (L ++ [c]) T m = L ++ [m] := by
  induction L with
  | nil => simp [storeCondition, hc]
  | cons a l ih =>
    have ha : ¬ a.Type_ = T := by
      intro ha
      simp [FindStatusCondition, ha] at h
    have hfind : FindStatusCondition l T = none := by
      simpa [FindStatusCondition, ha] using h
    simp [storeCondition, ha, ih hfind]

theorem storeCondition_twice (L : List Condition) (T : String) (m m' : Condition)
    (hm : m.Type_ = T) :
    storeCondition (storeCondition L T m) T m' = storeCondition L T m' := by
  induction L with
  | nil => rfl
  | cons a l ih =>
    by_cases ha : a.Type_ = T
    · simp [storeCondition, ha, hm]
    · simp [storeCondition, ha, ih]

theorem mergedCondition_self (e c : Condition) (t t' : Time) :
    mergedCondition (mergedCondition e c t) c t' = mergedCondition e c t := by
  simp [mergedCondition]

/-- Setting the same condition twice is the same as setting it once: the second
call finds status, reason and message in place and leaves the time alone. -/
theorem setConditionAt_idem (L : List Condition) (c : Condition) (t t' : Time) :
    setConditionAt (setConditionAt L c t) c t' = setConditionAt L c t := by
  cases h : FindStatusCondition L c.Type_ with
  | none =>
    rw [setConditionAt_none L c t h]
    by_cases hz : c.LastTransitionTime.IsZero = true
    · simp only [hz, if_true]
      have hf := find_append_of_none L c.Type_ { c with LastTransitionTime := t } h rfl
      rw [setConditionAt_some _ c _ t' hf,
        storeCondition_append_of_none L c.Type_ { c with LastTransitionTime := t } _ h rfl]
      simp [mergedCondition]
    · simp only [hz, Bool.false_eq_true, if_false]
      have hf := find_append_of_none L c.Type_ c h rfl
      rw [setConditionAt_some _ c _ t' hf,
        storeCondition_append_of_none L c.Type_ c _ h rfl]
      simp [mergedCondition]
  | some e =>
    have he := find_type L _ e h
    rw [setConditionAt_some L c e t h]
    have hf := find_storeCondition L c.Type_ e (mergedCondition e c t) h he
    rw [setConditionAt_some _ c _ t' hf,
      storeCondition_twice L c.Type_ (mergedCondition e c t) _ he, mergedCondition_self]

theorem setConditionAt_ne_nil (L : List Condition) (c : Condition) (t : Time) :
    setConditionAt L c t ≠ [] := by
  obtain ⟨m, hm, -⟩ := exists_mem_setConditionAt L c t
  exact List.ne_nil_of_mem hm

theorem initialisedConditions_of_ne_nil (L : List Condition) (t : Time) (h : L ≠ []) :
    initialisedConditions L t = L := by
  simp [initialisedConditions, length_eq_zero_false L h]

theorem ensuredFinalizers_idem (fs : List String) :
    ensuredFinalizers (ensuredFinalizers fs) = ensuredFinalizers fs :=
  ensuredFinalizers_of_mem _ (mem_ensuredFinalizers fs)

/-- A second successful run on an object not marked for deletion stores what
the first one stored. -/
theorem liveOutcome_idem (cr : PackageRevision) (t1 t2 t1' t2' : Time) :
    liveOutcome (liveOutcome cr t1 t2) t1' t2' = liveOutcome cr t1 t2 := by
  simp only [liveOutcome, availableCondition, ensuredFinalizers_idem,
    initialisedConditions_of_ne_nil _ t1' (setConditionAt_ne_nil _ _ _), setConditionAt_idem]

theorem find_map_withoutTime (L : List Condition) (T : String) :
    FindStatusCondition (L.map Condition.withoutTime) T =
      (FindStatusCondition L T).map Condition.withoutTime := by
  induction L with
  | nil => rfl
  | cons a l ih =>
    have hT : a.withoutTime.Type_ = a.Type_ := rfl
    by_cases ha : a.Type_ = T
    · simp [FindStatusCondition, hT, ha]
    · simp only [FindStatusCondition] at ih
      simp [FindStatusCondition, hT, ha, ih]

theorem storeCondition_map_withoutTime (L : List Condition) (T : String) (m : Condition) :
    (storeCondition L T m).map Condition.withoutTime =
      storeCondition (L.map Condition.withoutTime) T m.withoutTime := by
  induction L with
  | nil => rfl
  | cons a l ih =>
    have hT : a.withoutTime.Type_ = a.Type_ := rfl
    by_cases ha : a.Type_ = T
    · simp [storeCondition, hT, ha]
    · simp [storeCondition, hT, ha, ih]

/-- Blanking the times commutes with `meta.SetStatusCondition` for a condition
that carries no time. -/
theorem setConditionAt_withoutTime (L : List Condition) (c : Condition) (t : Time)
    (hc : c.LastTransitionTime = 0) :
    (setConditionAt L c t).map Condition.withoutTime =
      setConditionAt (L.map Condition.withoutTime) c 0 := by
  have hz : c.LastTransitionTime.IsZero = true := by simp [Time.IsZero, hc]
  cases h : FindStatusCondition L c.Type_ with
  | none =>
    have h' : FindStatusCondition (L.map Condition.withoutTime) c.Type_ = none := by
      rw [find_map_withoutTime, h]; rfl
    rw [setConditionAt_none L c t h, setConditionAt_none _ c 0 h']
    simp [hz, Condition.withoutTime]
  | some e =>
    have h' : FindStatusCondition (L.map Condition.withoutTime) c.Type_ =
        some e.withoutTime := by
      rw [find_map_withoutTime, h]; rfl
    rw [setConditionAt_some L c e t h, setConditionAt_some _ c _ 0 h',
      storeCondition_map_withoutTime]
    congr 1
    simp [mergedCondition, Condition.withoutTime, hz]

/-- On a list whose times are blank, setting `a` and then `b` of the same type,
neither carrying a time, is setting `b`. -/
theorem setConditionAt_overwrite (L : List Condition) (a b : Condition)
    (hT : a.Type_ = b.Type_) (ha : a.LastTransitionTime = 0) (hb : b.LastTransitionTime = 0) :
    setConditionAt (setConditionAt (L.map Condition.withoutTime) a 0) b 0 =
      setConditionAt (L.map Condition.withoutTime) b 0 := by
  have hza : a.LastTransitionTime.IsZero = true := by simp [Time.IsZero, ha]
  have hzb : b.LastTransitionTime.IsZero = true := by simp [Time.IsZero, hb]
  cases h : FindStatusCondition L a.Type_ with
  | none =>
    have h' : FindStatusCondition (L.map Condition.withoutTime) a.Type_ = none := by
      rw [find_map_withoutTime, h]; rfl
    have h'' : FindStatusCondition (L.map Condition.withoutTime) b.Type_ = none := hT ▸ h'
    rw [setConditionAt_none _ a 0 h', setConditionAt_none _ b 0 h'']
    simp only [hza, hzb, if_true]
    have hf := find_append_of_none (L.map Condition.withoutTime) b.Type_
      { a with LastTransitionTime := 0 } h'' hT
    rw [setConditionAt_some _ b _ 0 hf,
      storeCondition_append_of_none _ b.Type_ { a with LastTransitionTime := 0 } _ h'' hT]
    congr 2
    obtain ⟨bT, bS, bO, bL, bR, bM⟩ := b
    simp only at hb hT
    subst hb
    simp [mergedCondition, hT]
  | some e =>
    have h' : FindStatusCondition (L.map Condition.withoutTime) a.Type_ =
        some e.withoutTime := by
      rw [find_map_withoutTime, h]; rfl
    have h'' : FindStatusCondition (L.map Condition.withoutTime) b.Type_ =
        some e.withoutTime := hT ▸ h'
    have he : e.withoutTime.Type_ = b.Type_ := find_type _ _ _ h''
    rw [setConditionAt_some _ a _ 0 h', setConditionAt_some _ b _ 0 h'', hT]
    have hf := find_storeCondition _ b.Type_ _ (mergedCondition e.withoutTime a 0) h'' he
    rw [setConditionAt_some _ b _ 0 hf,
      storeCondition_twice _ b.Type_ (mergedCondition e.withoutTime a 0) _ he]
    congr 1
    simp [mergedCondition, Condition.withoutTime, hzb, hza, ha, hb]

theorem finalize_twice_conditions (C : List Condition) (a b : Condition)
    (hT : a.Type_ = b.Type_) (ha : a.LastTransitionTime = 0) (hb : b.LastTransitionTime = 0)
    (t2 t3 t1' t2' t3' : Time) :
    (setConditionAt (setConditionAt
      (initialisedConditions (setConditionAt (setConditionAt C a t2) b t3) t1') a t2') b t3').map
        Condition.withoutTime =
      (setConditionAt (setConditionAt C a t2) b t3).map Condition.withoutTime := by
  rw [initialisedConditions_of_ne_nil _ t1' (setConditionAt_ne_nil _ _ _),
    setConditionAt_withoutTime _ _ t3' hb, setConditionAt_withoutTime _ _ t2' ha,
    setConditionAt_overwrite _ _ _ hT ha hb, ← setConditionAt_withoutTime _ _ t3' hb,
    setConditionAt_idem]

/-- A second successful run on an object marked for deletion stores what the
first one stored, up to the last transition times. -/
theorem deletedOutcome_idem (cr : PackageRevision) (t1 t2 t3 t1' t2' t3' : Time) :
    (deletedOutcome (deletedOutcome cr t1 t2 t3) t1' t2' t3').withoutTimes =
      (deletedOutcome cr t1 t2 t3).withoutTimes := by
  have hcs := finalize_twice_conditions (initialisedConditions cr.Status.Conditions t1)
    (finalizingCondition cr) (finalizedCondition cr) rfl rfl rfl t2 t3 t1' t2' t3'
  have hfs : (cr.Finalizers.filter (fun x => x != PackageRevisionFinalizer)).filter
      (fun x => x != PackageRevisionFinalizer) =
      cr.Finalizers.filter (fun x => x != PackageRevisionFinalizer) := by
    simp [List.filter_filter]
  show ({ cr with
      Finalizers := (cr.Finalizers.filter (fun x => x != PackageRevisionFinalizer)).filter
        (fun x => x != PackageRevisionFinalizer)
      Status := { cr.Status with
        Conditions := (setConditionAt (setConditionAt
          (initialisedConditions (setConditionAt (setConditionAt
            (initialisedConditions cr.Status.Conditions t1) (finalizingCondition cr) t2)
            (finalizedCondition cr) t3) t1') (finalizingCondition cr) t2')
          (finalizedCondition cr) t3').map Condition.withoutTime } } : PackageRevision) =
    { cr with
      Finalizers := cr.Finalizers.filter (fun x => x != PackageRevisionFinalizer)
      Status := { cr.Status with
        Conditions := (setConditionAt (setConditionAt
          (initialisedConditions cr.Status.Conditions t1) (finalizingCondition cr) t2)
          (finalizedCondition cr) t3).map Condition.withoutTime } }
  rw [hcs, hfs]

/-- What a second run keeps.  When every client call goes through and nothing
else writes the object, running `Reconcile` twice in succession leaves the stored
object as running it once does: fully so (spec, finalizers, conditions and their
last transition times) for an object that is not marked for deletion, and up to
the last transition times of the conditions for every object. -/
theorem reconcile_idempotent (req : Request) (w : World) (hf : allSucceed w.faults) :
    ((Reconcile req (Reconcile req w).2).2.store.map PackageRevision.withoutTimes =
      (Reconcile req w).2.store.map PackageRevision.withoutTimes) ∧
    (∀ cr, w.store = some cr → cr.DeletionTimestamp = none →
      (Reconcile req (Reconcile req w).2).2.store = (Reconcile req w).2.store) := by
  have hlive : ∀ cr, w.store = some cr → cr.DeletionTimestamp = none →
      (Reconcile req (Reconcile req w).2).2.store = (Reconcile req w).2.store := by
    intro cr hs hd
    obtain ⟨t1, t2, l, -, hstore, hfaults, -, -, -⟩ := run_live req w cr hs hd hf
    obtain ⟨t1', t2', l', -, hstore', -, -, -, -⟩ :=
      run_live req (Reconcile req w).2 (liveOutcome cr t1 t2) hstore hd hfaults
    rw [hstore', hstore, liveOutcome_idem]
  refine ⟨?_, hlive⟩
  cases hs : w.store with
  | none =>
    have hrun : ∀ v : World, v.store = none → (Reconcile req v).2.store = none := by
      intro v hv
      rcases Get_cases req.NamespacedName v with ⟨obj, hobj, -, -⟩ | ⟨e, hg⟩
      · rw [hv] at hobj
        cases hobj
      · rw [Reconcile, hg]
        simp only []
        by_cases hnf : IsNotFound e = true
        · rw [if_pos hnf]; exact hv
        · rw [if_neg hnf]; exact hv
    have h1 := hrun w hs
    rw [hrun _ h1, h1]
  | some cr =>
    by_cases hd : cr.DeletionTimestamp = none
    · rw [hlive cr hs hd]
    · have hd' := isSome_of_ne_none _ hd
      obtain ⟨t1, t2, t3, -, hstore, hfaults, -⟩ := run_deleted req w cr hs hd' hf
      obtain ⟨t1', t2', t3', -, hstore', -, -⟩ :=
        run_deleted req (Reconcile req w).2 (deletedOutcome cr t1 t2 t3) hstore hd' hfaults
      rw [hstore', hstore]
      simp only [Option.map_some', deletedOutcome_idem]

/-! ## The contract at concrete inputs -/

theorem allSucceed_nil : allSucceed [] := fun _ h => nomatch h

/-- C1 at `exampleObject`. -/
theorem finalizer_added_once_witness :
    (exampleWorld (some exampleObject) []).store = some exampleObject ∧
    exampleObject.DeletionTimestamp = none ∧
    allSucceed (exampleWorld (some exampleObject) []).faults ∧
    exampleObject.Finalizers.count PackageRevisionFinalizer ≤ 1 ∧
    ∃ cr' : PackageRevision, ∃ l : List (Call × Option Error),
      (Reconcile exampleRequest (exampleWorld (some exampleObject) [])).2.store = some cr' ∧
      (Reconcile exampleRequest (exampleWorld (some exampleObject) [])).2.calls =
        (exampleWorld (some exampleObject) []).calls ++ l ∧
      cr'.Finalizers.count PackageRevisionFinalizer = 1 ∧
      (PackageRevisionFinalizer ∈ exampleObject.Finalizers →
        cr'.Finalizers = exampleObject.Finalizers ∧ ∀ x ∈ l, ∀ o, x.1 ≠ Call.update o) :=
  ⟨rfl, rfl, allSucceed_nil, by decide,
    finalizer_added_once exampleRequest (exampleWorld (some exampleObject) []) exampleObject
      rfl rfl allSucceed_nil (by decide)⟩

/-- C2 at `exampleDeleted`. -/
theorem finalizer_removed_on_deletion_witness :
    (exampleWorld (some exampleDeleted) []).store = some exampleDeleted ∧
    exampleDeleted.DeletionTimestamp ≠ none ∧
    allSucceed (exampleWorld (some exampleDeleted) []).faults ∧
    (Reconcile exampleRequest (exampleWorld (some exampleDeleted) [])).1 =
      (Result.empty, none) ∧
    ∃ cr' : PackageRevision,
      (Reconcile exampleRequest (exampleWorld (some exampleDeleted) [])).2.store = some cr' ∧
      PackageRevisionFinalizer ∉ cr'.Finalizers ∧
      cr'.Finalizers =
        exampleDeleted.Finalizers.filter (fun x => x != PackageRevisionFinalizer) ∧
      (∀ f ∈ exampleDeleted.Finalizers, f ≠ PackageRevisionFinalizer → f ∈ cr'.Finalizers) :=
  ⟨rfl, by decide, allSucceed_nil,
    finalizer_removed_on_deletion exampleRequest (exampleWorld (some exampleDeleted) [])
      exampleDeleted rfl (by decide) allSucceed_nil⟩

/-- C3 at an empty store. -/
theorem not_found_stops_witness :
    (Get exampleRequest.NamespacedName (exampleWorld none [])).1 =
      .error (notFoundError exampleRequest.NamespacedName) ∧
    IsNotFound (notFoundError exampleRequest.NamespacedName) = true ∧
    (Reconcile exampleRequest (exampleWorld none [])).1 = (Result.empty, none) ∧
    (Reconcile exampleRequest (exampleWorld none [])).2.calls =
      (exampleWorld none []).calls ++
        [(Call.get exampleRequest.NamespacedName,
          some (notFoundError exampleRequest.NamespacedName))] ∧
    (Reconcile exampleRequest (exampleWorld none [])).2.events = (exampleWorld none []).events ∧
    (Reconcile exampleRequest (exampleWorld none [])).2.store = (exampleWorld none []).store :=
  ⟨rfl, rfl, not_found_stops exampleRequest (exampleWorld none [])
    (notFoundError exampleRequest.NamespacedName) rfl rfl⟩

/-- C4 as stated fails: on an empty store the initial `Get` returns a NotFound
error, and `Reconcile` returns a nil error instead of that error. -/
theorem not_found_not_propagated :
    (Reconcile exampleRequest (exampleWorld none [])).2.calls =
      [(Call.get exampleRequest.NamespacedName,
        some (notFoundError exampleRequest.NamespacedName))] ∧
    (Reconcile exampleRequest (exampleWorld none [])).1.2 ≠
      some (notFoundError exampleRequest.NamespacedName) := by
  decide

/-- C4, amended, at a run whose first status update is refused. -/
theorem errors_propagated_witness :
    (Reconcile exampleRequest
        (exampleWorld (some exampleObject) [none, some conflictError])).2.calls =
      (exampleWorld (some exampleObject) [none, some conflictError]).calls ++
        [(Call.get exampleRequest.NamespacedName, none)] ++
        [(Call.statusUpdate (startedObject exampleObject 1), some conflictError)] ++ [] ∧
    (([] : List (Call × Option Error)) = [] ∧
    (Reconcile exampleRequest
      (exampleWorld (some exampleObject) [none, some conflictError])).1.1 = Result.empty ∧
    ([(Call.get exampleRequest.NamespacedName, (none : Option Error))] = [] ∧
        IsNotFound conflictError = true →
      (Reconcile exampleRequest
        (exampleWorld (some exampleObject) [none, some conflictError])).1.2 = none) ∧
    (¬ ([(Call.get exampleRequest.NamespacedName, (none : Option Error))] = [] ∧
        IsNotFound conflictError = true) →
      (Reconcile exampleRequest
        (exampleWorld (some exampleObject) [none, some conflictError])).1.2 =
          some conflictError)) :=
  ⟨by decide,
    errors_propagated exampleRequest
      (exampleWorld (some exampleObject) [none, some conflictError])
      [(Call.get exampleRequest.NamespacedName, none)] []
      (Call.statusUpdate (startedObject exampleObject 1)) conflictError (by decide)⟩

/-- C5.  The code at an object marked for deletion, against a client that
accepts every call.  The docstring of `Reconcile` asks for an idempotent loop,
yet the second run re-adds the finalizer, sets `Degraded` to `Unknown` and to
`True` again and removes the finalizer again: the last transition time of the
`Degraded` condition moves from 3 to 5, so the stored object after two runs is
not the one after one run, and a second `Deleting` event is recorded. -/
theorem second_run_moves_transition_time :
    allSucceed (exampleWorld (some exampleDeleted) []).faults ∧
    (Reconcile exampleRequest
        (Reconcile exampleRequest (exampleWorld (some exampleDeleted) [])).2).1 =
      (Result.empty, none) ∧
    (Reconcile exampleRequest
        (Reconcile exampleRequest (exampleWorld (some exampleDeleted) [])).2).2.events =
      [deletingEvent exampleDeleted, deletingEvent exampleDeleted] ∧
    (Reconcile exampleRequest
        (Reconcile exampleRequest (exampleWorld (some exampleDeleted) [])).2).2.store ≠
      (Reconcile exampleRequest (exampleWorld (some exampleDeleted) [])).2.store ∧
    ((Reconcile exampleRequest (exampleWorld (some exampleDeleted) [])).2.store.map
        (fun o => o.Status.Conditions.map (fun c => (c.Type_, c.LastTransitionTime)))) =
      some [("Available", 1), ("Degraded", 3)] ∧
    ((Reconcile exampleRequest
        (Reconcile exampleRequest (exampleWorld (some exampleDeleted) [])).2).2.store.map
        (fun o => o.Status.Conditions.map (fun c => (c.Type_, c.LastTransitionTime)))) =
      some [("Available", 1), ("Degraded", 5)] :=
  ⟨allSucceed_nil, by decide, by decide, by decide, by decide, by decide⟩

/-- The second run at `exampleObject`, which is not marked for deletion: the
stored object is kept. -/
theorem reconcile_idempotent_witness :
    allSucceed (exampleWorld (some exampleObject) []).faults ∧
    ((Reconcile exampleRequest
        (Reconcile exampleRequest (exampleWorld (some exampleObject) [])).2).2.store.map
          PackageRevision.withoutTimes =
      (Reconcile exampleRequest (exampleWorld (some exampleObject) [])).2.store.map
          PackageRevision.withoutTimes) ∧
    (∀ cr, (exampleWorld (some exampleObject) []).store = some cr →
      cr.DeletionTimestamp = none →
      (Reconcile exampleRequest
        (Reconcile exampleRequest (exampleWorld (some exampleObject) [])).2).2.store =
      (Reconcile exampleRequest (exampleWorld (some exampleObject) [])).2.store) :=
  ⟨allSucceed_nil,
    reconcile_idempotent exampleRequest (exampleWorld (some exampleObject) []) allSucceed_nil⟩

/-- C6 as stated fails: when the status update of the starting condition is
refused, no re-fetch follows it; the run ends after two calls. -/
theorem refused_status_update_not_followed_by_refetch :
    (Get exampleRequest.NamespacedName
      (exampleWorld (some exampleObject) [none, some conflictError])).1 = .ok exampleObject ∧
    exampleObject.Status.Conditions = [] ∧
    (Reconcile exampleRequest
        (exampleWorld (some exampleObject) [none, some conflictError])).2.calls =
      [(Call.get exampleRequest.NamespacedName, none),
       (Call.statusUpdate (startedObject exampleObject 1), some conflictError)] :=
  ⟨rfl, rfl, by decide⟩

/-- C6, amended, at `exampleObject`. -/
theorem status_initialised_witness :
    (Get exampleRequest.NamespacedName (exampleWorld (some exampleObject) [])).1 =
      .ok exampleObject ∧
    (exampleObject.Status.Conditions = [] →
      ∃ obj c r rest,
        (Reconcile exampleRequest (exampleWorld (some exampleObject) [])).2.calls =
          (exampleWorld (some exampleObject) []).calls ++
            (Call.get exampleRequest.NamespacedName, none) ::
              (Call.statusUpdate obj, r) :: rest ∧
        obj.Status.Conditions = [c] ∧ c.Type_ = typeAvailablePackageRevision ∧
        c.Status = ConditionUnknown ∧ c.Reason = "Reconciling" ∧
        c.Message = "Starting reconciliation" ∧
        (r = none → ∃ r' rest', rest = (Call.get exampleRequest.NamespacedName, r') :: rest')) ∧
    (exampleObject.Status.Conditions ≠ [] →
      ∃ l, (Reconcile exampleRequest (exampleWorld (some exampleObject) [])).2.calls =
          (exampleWorld (some exampleObject) []).calls ++
            (Call.get exampleRequest.NamespacedName, none) :: l ∧
        (∀ x ∈ l, ∀ obj c, x.1 = Call.statusUpdate obj → obj.Status.Conditions = [c] →
          ¬ (c.Type_ = typeAvailablePackageRevision ∧ c.Status = ConditionUnknown)) ∧
        (∀ i key r, l[i]? = some (Call.get key, r) →
          0 < i ∧ ∃ obj c, l[i - 1]? = some (Call.statusUpdate obj, none) ∧
            c ∈ obj.Status.Conditions ∧ c.Type_ = typeDegradedPackageRevision)) :=
  ⟨rfl,
    status_initialised exampleRequest (exampleWorld (some exampleObject) []) exampleObject rfl⟩

/-- C7 at `exampleDeleted`, the second `Degraded` status update being refused:
the event is recorded all the same, once. -/
theorem event_on_deletion_only_witness :
    (exampleWorld (some exampleDeleted) [none, none, none, none, none, some conflictError]).store =
      some exampleDeleted ∧
    exampleDeleted.DeletionTimestamp ≠ none ∧
    succeedFor (1 + initCalls exampleDeleted + finalizerCalls exampleDeleted + 1)
      (exampleWorld (some exampleDeleted)
        [none, none, none, none, none, some conflictError]).faults ∧
    (Reconcile exampleRequest (exampleWorld (some exampleDeleted)
        [none, none, none, none, none, some conflictError])).2.events =
      (exampleWorld (some exampleDeleted)
        [none, none, none, none, none, some conflictError]).events ++
        [{ Namespace := "default", Name := "pkg", eventtype := "Warning", reason := "Deleting",
           message := "Custom Resource pkg is being deleted from the namespace default" }] :=
  ⟨rfl, by decide, by decide,
    (event_on_deletion_only exampleRequest (exampleWorld (some exampleDeleted)
      [none, none, none, none, none, some conflictError])).1 exampleDeleted rfl (by decide)
      (by decide)⟩

/-- C8 as stated fails: on an object that holds the `Available` condition twice,
with every call going through, the stored conditions hold two conditions of type
`Available`, both with status `True`, the reason and the message of the claim. -/
theorem duplicate_available_condition_kept :
    exampleDuplicated.DeletionTimestamp = none ∧
    allSucceed (exampleWorld (some exampleDuplicated) []).faults ∧
    (Reconcile exampleRequest (exampleWorld (some exampleDuplicated) [])).2.store.map
        (fun o => (o.Status.Conditions.filter
          (fun c => c.Type_ == typeAvailablePackageRevision)).map
            (fun c => (c.Status, c.Reason, c.Message))) =
      some [("True", "Reconciling",
              "Deployment for custom resource (pkg) with Draft lifecycle successful"),
            ("True", "Reconciling",
              "Deployment for custom resource (pkg) with Draft lifecycle successful")] :=
  ⟨rfl, allSucceed_nil, by decide⟩

/-- C8, amended, at `exampleObject`. -/
theorem available_reported_witness :
    (exampleWorld (some exampleObject) []).store = some exampleObject ∧
    exampleObject.DeletionTimestamp = none ∧
    allSucceed (exampleWorld (some exampleObject) []).faults ∧
    (exampleObject.Status.Conditions.filter
      (fun c => c.Type_ == typeAvailablePackageRevision)).length ≤ 1 ∧
    (Reconcile exampleRequest (exampleWorld (some exampleObject) [])).1 =
      (Result.empty, none) ∧
    ∃ cr' : PackageRevision, ∃ c : Condition, ∃ l : List (Call × Option Error),
      (Reconcile exampleRequest (exampleWorld (some exampleObject) [])).2.store = some cr' ∧
      (Reconcile exampleRequest (exampleWorld (some exampleObject) [])).2.calls =
        (exampleWorld (some exampleObject) []).calls ++
          (l ++ [(Call.statusUpdate cr', none)]) ∧
      cr'.Status.Conditions.filter (fun c => c.Type_ == typeAvailablePackageRevision) = [c] ∧
      c.Status = ConditionTrue ∧ c.Reason = "Reconciling" ∧
      c.Message = "Deployment for custom resource (" ++ exampleObject.Name ++ ") with " ++
        exampleObject.Spec.Lifecycle ++ " lifecycle successful" :=
  ⟨rfl, rfl, allSucceed_nil, by decide,
    available_reported exampleRequest (exampleWorld (some exampleObject) []) exampleObject
      rfl rfl allSucceed_nil (by decide)⟩

/-- C10 at `exampleObject` and `exampleMalformed`, which differ in `Revision`
and `Tasks` only. -/
theorem spec_fields_ignored_witness :
    exampleMalformed.Spec ≠ exampleObject.Spec ∧
    exampleMalformed.Spec.Revision < -1 ∧
    (Reconcile exampleRequest
      { exampleWorld (some exampleObject) [] with store := some exampleMalformed }).1 =
      (Reconcile exampleRequest (exampleWorld (some exampleObject) [])).1 ∧
    (Reconcile exampleRequest
      { exampleWorld (some exampleObject) [] with store := some exampleMalformed }).2.events =
      (Reconcile exampleRequest (exampleWorld (some exampleObject) [])).2.events ∧
    callShapes (Reconcile exampleRequest
      { exampleWorld (some exampleObject) [] with store := some exampleMalformed }).2.calls =
      callShapes (Reconcile exampleRequest (exampleWorld (some exampleObject) [])).2.calls ∧
    (Reconcile exampleRequest
      { exampleWorld (some exampleObject) [] with store := some exampleMalformed }).2.store.map
        (fun o => o.Finalizers) =
      (Reconcile exampleRequest (exampleWorld (some exampleObject) [])).2.store.map
        (fun o => o.Finalizers) ∧
    (Reconcile exampleRequest
      { exampleWorld (some exampleObject) [] with store := some exampleMalformed }).2.store.map
        (fun o => o.Status.Conditions) =
      (Reconcile exampleRequest (exampleWorld (some exampleObject) [])).2.store.map
        (fun o => o.Status.Conditions) :=
  ⟨by decide, by decide,
    spec_fields_ignored exampleRequest (exampleWorld (some exampleObject) []) exampleObject
      exampleMalformed rfl rfl rfl rfl rfl rfl rfl⟩

end PorchOperator
